import Mathlib

/-!
# The resumable download engine `FileGet` (`src/slic3r/GUI/DownloaderFileGet.cpp`)

A shallow embedding of `FileGet::priv`, of `FileGet::priv::get_perform` with the four hooks it
hands to the HTTP transport, and of the controller operations `get`, `cancel`, `pause`, `resume`.

Modelling conventions.

* `std::string` is `List Char`; it serves for file names, paths and received data alike.
* `size_t` values are natural numbers and every `size_t` operation of the source that can wrap is
  written with an explicit `% SIZE_MOD` (64-bit `size_t`); `int` is 32 bits wide.
* The filesystem records the regular files with their contents, the directories, and the paths
  whose status cannot be read.  Probing such a path throws `filesystem_error`; `fopen` fails and
  `rename` throws where no file can be created (the directory of the path does not exist, the
  path is a directory, or it cannot be accessed).  A write to an open file always succeeds, and
  data passed to `fwrite` lands in the file at once; `fclose` therefore has no effect of its
  own.  Path strings are not normalised: `a/../b` and `b` are different paths.
* The wx event queue of `m_evt_handler` is the list `queue`, oldest event first.
* The HTTP transport (`Http`) is not among the sources.  It enters as the sequence of hook
  invocations it makes, which is an argument of the model and is nowhere assumed to be
  well-behaved unless a statement says so.
* Paths are POSIX paths: the separator is `/`.
* The worker thread is not modelled as a thread: the worker reads the three atomic flags only at
  the start of the progress hook, so a run of the worker is the sequence of hook invocations the
  transport makes, and the controller writes the flags between two invocations.
-/

namespace Slic3r.GUI

/-- Strings of the source (`std::string`), as lists of characters. -/
abbrev Str := List Char

def DOWNLOAD_MAX_CHUNK_SIZE : Nat := 10 * 1024 * 1024

def DOWNLOAD_SIZE_LIMIT : Nat := 1024 * 1024 * 1024

/-- Number of values of `size_t`. -/
def SIZE_MOD : Nat := 2 ^ 64

/-! ## Library functions used by the source -/

/-- Models `std::to_string` on an unsigned value: its decimal rendering. -/
def to_string (n : Nat) : Str := Nat.toDigits 10 n

/-- Models `std::to_string(int)`. -/
def to_string_int (i : Int) : Str :=
  if i < 0 then '-' :: to_string i.natAbs else to_string i.toNat

/-- Conversion of a `size_t` value to a 32-bit `int`. -/
def to_int (n : Nat) : Int :=
  if n % 2 ^ 32 < 2 ^ 31 then ((n % 2 ^ 32 : Nat) : Int) else ((n % 2 ^ 32 : Nat) : Int) - 2 ^ 32

/-- Models `std::string::substr(pos, count)`: throws (`none`) when `pos` is past the end, and otherwise
gives the characters from `pos` on, at most `count` of them. -/
def substr (s : Str) (pos count : Nat) : Option Str :=
  if pos > s.length then none else some ((s.drop pos).take count)

/-- Models `size_t` subtraction `a - b`. -/
def size_sub (a b : Nat) : Nat := (a + SIZE_MOD - b % SIZE_MOD) % SIZE_MOD

/-- Models `size_t` addition `a + b`. -/
def size_add (a b : Nat) : Nat := (a + b) % SIZE_MOD

/-- Models `size_t` multiplication `a * b`. -/
def size_mul (a b : Nat) : Nat := (a * b) % SIZE_MOD

/-- Models `boost::filesystem::path::operator/` for a directory without trailing separator. -/
def path_append (dir name : Str) : Str := dir ++ '/' :: name

/-- Models `boost::filesystem::path::filename()` (Boost.Filesystem v3) of a non-empty path: what follows
the last separator, and `.` when the path ends in a separator. -/
def path_filename (p : Str) : Str :=
  match (p.reverse.takeWhile (fun c => c != '/')).reverse with
  | [] => ['.']
  | c :: t => c :: t

/-- Models `boost::filesystem::path::extension()` (Boost.Filesystem v3): empty for the names `.` and
`..` and for a name without a dot, otherwise the part of the file name from its last dot on. -/
def path_extension (p : Str) : Str :=
  let name := path_filename p
  if name = ['.'] ∨ name = ['.', '.'] then []
  else if '.' ∈ name then '.' :: (name.reverse.takeWhile (fun c => c != '.')).reverse
  else []

/-- Models `GUI::format("%1%(%2%)", just_filename, std::to_string(version))`; `GUI::format`
(`format.hpp`) substitutes its arguments for the numbered placeholders. -/
def format_version (just_filename : Str) (version : Nat) : Str :=
  just_filename ++ '(' :: (to_string version ++ [')'])

/-- The suffix `"." + std::to_string(get_current_pid()) + ".download"` of a temporary file. -/
def download_suffix (pid : Nat) : Str := '.' :: (to_string pid ++ ".download".toList)

/-! ## The filesystem -/

/-- The directory part of a path: what precedes its last separator, and the empty path (the
directory the paths are relative to) when it has none. -/
def path_parent (p : Str) : Str :=
  ((p.reverse.dropWhile (fun c => c != '/')).drop 1).reverse

/-- Whether `d` is an existing directory; the empty path always is. -/
def dir_present (dirs : Str → Bool) (d : Str) : Bool := d.isEmpty || dirs d

/-- A filesystem: the regular files with their contents, the directories, and the paths whose
status cannot be read (`stat` fails there with an error other than "not found", as without
search permission).  Every file and every directory lies in an existing directory, no path is
both a file and a directory, and no file is seen at a path whose status cannot be read. -/
structure FS where
  files : Str → Option Str
  dirs : Str → Bool
  denied : Str → Bool
  parent_present : ∀ p, (files p).isSome = true ∨ dirs p = true →
    dir_present dirs (path_parent p) = true
  file_not_dir : ∀ p, (files p).isSome = true → dirs p = false
  file_not_denied : ∀ p, (files p).isSome = true → denied p = false

namespace FS

/-- Models `boost::filesystem::exists`: throws `filesystem_error` (`none`) when the status of
the path cannot be read, and otherwise tells whether a file or a directory is there. -/
def file_exists (fs : FS) (path : Str) : Option Bool :=
  if fs.denied path then none else some ((fs.files path).isSome || fs.dirs path)

/-- Whether a file can be created or replaced at `path`: the path can be accessed, it is not a
directory, and its directory exists. -/
def can_create (fs : FS) (path : Str) : Bool :=
  !fs.denied path && !fs.dirs path && dir_present fs.dirs (path_parent path)

/-- The filesystem with the file `path` holding `data`, where a file can be created. -/
def put (fs : FS) (path data : Str) (h : fs.can_create path = true) : FS :=
  { files := fun q => if q = path then some data else fs.files q
    dirs := fs.dirs
    denied := fs.denied
    parent_present := by
      intro p hp
      by_cases hq : p = path
      · subst hq
        simp only [can_create, Bool.and_eq_true] at h
        exact h.2
      · simp only [hq, if_false] at hp
        exact fs.parent_present p hp
    file_not_dir := by
      intro p hp
      by_cases hq : p = path
      · subst hq
        simp only [can_create, Bool.and_eq_true, Bool.not_eq_true'] at h
        exact h.1.2
      · simp only [hq, if_false] at hp
        exact fs.file_not_dir p hp
    file_not_denied := by
      intro p hp
      by_cases hq : p = path
      · subst hq
        simp only [can_create, Bool.and_eq_true, Bool.not_eq_true'] at h
        exact h.1.1
      · simp only [hq, if_false] at hp
        exact fs.file_not_denied p hp }

/-- Models `std::remove` of a file.  Directories are left alone: the source removes only the
temporary file it wrote. -/
def remove (fs : FS) (path : Str) : FS :=
  { files := fun q => if q = path then none else fs.files q
    dirs := fs.dirs
    denied := fs.denied
    parent_present := by
      intro p hp
      apply fs.parent_present p
      rcases hp with hp | hp
      · left
        by_cases hq : p = path
        · simp [hq] at hp
        · simpa [hq] using hp
      · exact Or.inr hp
    file_not_dir := by
      intro p hp
      apply fs.file_not_dir p
      by_cases hq : p = path
      · simp [hq] at hp
      · simpa [hq] using hp
    file_not_denied := by
      intro p hp
      apply fs.file_not_denied p
      by_cases hq : p = path
      · simp [hq] at hp
      · simpa [hq] using hp }

/-- Models `fopen(path, "wb")`: returns `NULL` (`none`) where no file can be created, and
otherwise creates the file, or truncates it. -/
def fopen_wb (fs : FS) (path : Str) : Option FS :=
  if h : fs.can_create path = true then some (fs.put path [] h) else none

/-- Models `fopen(path, "ab")`: returns `NULL` (`none`) where no file can be created, and
otherwise creates the file if it does not exist and keeps its contents if it does. -/
def fopen_ab (fs : FS) (path : Str) : Option FS :=
  if h : fs.can_create path = true then some (fs.put path ((fs.files path).getD []) h) else none

/-- Models `fwrite` to the stream opened at `path`: appends the data.  Data written to a file
that has been removed in the meantime is lost. -/
def fwrite (fs : FS) (path data : Str) : FS :=
  match h : fs.files path with
  | some old =>
    fs.put path (old ++ data) (by
      have h1 : (fs.files path).isSome = true := by rw [h]; rfl
      simp [can_create, fs.file_not_denied path h1, fs.file_not_dir path h1,
        fs.parent_present path (Or.inl h1)])
  | none => fs

/-- Models `boost::filesystem::rename` of a file: throws (`none`) when the source does not
exist or cannot be accessed and when no file can be created at the target (its directory does
not exist, or it is a directory); otherwise the target takes the contents of the source,
replacing a file that was there, and the source is gone. -/
def rename (fs : FS) (src dst : Str) : Option FS :=
  match fs.files src with
  | none => none
  | some data =>
    if h : fs.can_create dst = true then some ((fs.remove src).put dst data h) else none

end FS

/-! ## Notifications -/

/-- Modelled from the spec: the event types are declared in `DownloaderFileGet.hpp`, which is not
among the sources; the source file defines the six tags and says what each carries.  These are
the events queued to `m_evt_handler`; every one carries the download id first, and
`EVT_DWNLDR_FILE_COMPLETE` carries the `DownloadEventData` (id, path, `load_after`). -/
inductive Event where
  | EVT_DWNLDR_FILE_COMPLETE (id : Int) (path : Str) (load_after : Bool)
  | EVT_DWNLDR_FILE_ERROR (id : Int) (msg : Str)
  | EVT_DWNLDR_FILE_PROGRESS (id : Int) (percent : Str)
  | EVT_DWNLDR_FILE_NAME_CHANGE (id : Int) (name : Str)
  | EVT_DWNLDR_FILE_PAUSED (id : Int)
  | EVT_DWNLDR_FILE_CANCELED (id : Int)
  deriving DecidableEq, Repr

open Event

/-- Whether an event is one of the two stop notifications, Paused or Cancelled. -/
def Event.is_stop : Event → Bool
  | EVT_DWNLDR_FILE_PAUSED _ => true
  | EVT_DWNLDR_FILE_CANCELED _ => true
  | _ => false

/-- Whether an event is an Error notification. -/
def Event.is_error : Event → Bool
  | EVT_DWNLDR_FILE_ERROR _ _ => true
  | _ => false

/-- Whether an event is a FilenameChanged notification. -/
def Event.is_name_change : Event → Bool
  | EVT_DWNLDR_FILE_NAME_CHANGE _ _ => true
  | _ => false

/-! ## Response headers -/

/-- Whether `s` starts with `t`. -/
def starts_with : Str → Str → Bool
  | _, [] => true
  | [], _ :: _ => false
  | a :: s, b :: t => a == b && starts_with s t

/-- Models `line.find(needle) != std::string::npos`. -/
def str_contains (needle : Str) : Str → Bool
  | [] => starts_with [] needle
  | c :: t => starts_with (c :: t) needle || str_contains needle t

/-- The characters matched by `\s` of the regular expression. -/
def is_space (c : Char) : Bool :=
  c == ' ' || c == '\t' || c == '\n' || c == '\x0b' || c == '\x0c' || c == '\r'

/-- A match of `filename\s*=\s*"([^"]+)"` (case-insensitive) that starts at the beginning of
`t`; the result is the capture group.  Every greedy repetition of the expression is followed by
a character outside its class, so the match is found without backtracking. -/
def match_filename_at (t : Str) : Option Str :=
  if (t.take 8).map Char.toLower = "filename".toList then
    match (t.drop 8).dropWhile is_space with
    | '=' :: r =>
      match r.dropWhile is_space with
      | '"' :: q =>
        match q.takeWhile (fun c => c != '"'), q.dropWhile (fun c => c != '"') with
        | c :: name, '"' :: _ => some (c :: name)
        | _, _ => none
      | _ => none
    | _ => none
  else none

/-- Models `std::regex_search` with the expression of `extract_filename_from_header`: the leftmost
match. -/
def regex_search_filename : Str → Option Str
  | [] => none
  | c :: t =>
    match match_filename_at (c :: t) with
    | some name => some name
    | none => regex_search_filename t

/-- Split at `'\n'`, as the `std::getline` loop does. -/
def split_lines : Str → List Str
  | [] => []
  | c :: t =>
    match split_lines t with
    | [] => if c = '\n' then [[]] else [[c]]
    | l :: ls => if c = '\n' then [] :: l :: ls else (c :: l) :: ls

/-- The loop of `extract_filename_from_header` over the lines. -/
def extract_from_lines : List Str → Str
  | [] => []
  | line :: rest =>
    if str_contains "content-disposition".toList line then
      match regex_search_filename line with
      | some name => name
      | none => extract_from_lines rest
    else extract_from_lines rest

def extract_filename_from_header (headers : Str) : Str :=
  extract_from_lines (split_lines headers)

/-! ## The job -/

/-- The members of `FileGet::priv` (with `joinable` for `m_io_thread.joinable()`), the
filesystem and event queue it acts on, and the locals of `get_perform` that the hooks capture by
reference. -/
structure State where
  m_id : Int
  m_url : Str
  m_filename : Str
  m_dest_folder : Str
  m_tmp_path : Str
  m_cancel : Bool
  m_pause : Bool
  m_stopped : Bool
  m_written : Nat
  m_absolute_size : Nat
  m_load_after : Bool
  joinable : Bool
  fs : FS
  queue : List Event
  dest_path : Str
  range_string : Str
  written_previously : Nat
  written_this_session : Nat

/-- Modelled from the spec: `Http::Progress` is declared with the HTTP transport, which is not
among the sources.  The progress hook is "invoked repeatedly with cumulative bytes downloaded so
far and the full buffer received to date"; these are the fields the hook reads. -/
structure Progress where
  dltotal : Nat
  dlnow : Nat
  buffer : Str
  deriving DecidableEq, Repr

/-- The mode `fopen` is called with. -/
inductive OpenMode where
  | wb
  | ab
  deriving DecidableEq, Repr

/-- Modelled from the spec: the request `get_perform` hands to the HTTP transport, which is not
among the sources: `Http::get(m_url)` with `size_limit` (the response-size ceiling) and
`set_range` (the byte-range header). -/
structure HttpGet where
  url : Str
  size_limit : Nat
  range : Str
  deriving DecidableEq, Repr

/-- Models `FileGet::priv::priv`, on a filesystem `fs` and with an empty event queue. -/
def priv_ctor (ID : Int) (url filename dest_folder : Str) (load_after : Bool) (fs : FS) : State :=
  { m_id := ID, m_url := url,
    m_filename := filename.filter (fun c => c != ':'),
    m_dest_folder := dest_folder, m_tmp_path := [],
    m_cancel := false, m_pause := false, m_stopped := false,
    m_written := 0, m_absolute_size := 0, m_load_after := load_after,
    joinable := false, fs := fs, queue := [],
    dest_path := [], range_string := [], written_previously := 0, written_this_session := 0 }

/-- Outcome of a search for an unused file name: a free name was found, the version passed
999, a probe threw `filesystem_error`, or the bound on the probes was reached. -/
inductive Search where
  | found (final_filename : Str)
  | exhausted (final_filename : Str)
  | failed
  | spent
  deriving DecidableEq, Repr

/-- The `while` loop that both name searches of `get_perform` share, inside its `try` block;
they differ in the loop condition `occupied`, which is given the candidate
`final_filename + extension` and is `none` when a probe throws.  The first argument bounds the
number of probes; `spent` is the result when the bound is reached. -/
def find_unused (occupied : Str → Option Bool) (just_filename extension : Str) :
    Nat → Nat → Str → Search
  | 0, _, _ => Search.spent
  | fuel + 1, version, final_filename =>
    match occupied (final_filename ++ extension) with
    | none => Search.failed
    | some true =>
      if version + 1 > 999 then Search.exhausted final_filename
      else find_unused occupied just_filename extension fuel (version + 1)
        (format_version just_filename (version + 1))
    | some false => Search.found final_filename

/-- The loop condition of the name search at a fresh start, `exists(file) || exists(temporary)`:
the second probe is made only when the first finds nothing. -/
def occupied_fresh (fs : FS) (dir : Str) (pid : Nat) (name : Str) : Option Bool :=
  match fs.file_exists (path_append dir name) with
  | none => none
  | some true => some true
  | some false => fs.file_exists (path_append dir (name ++ download_suffix pid))

/-- The loop condition of the name search of the on-headers hook, `exists(file)`. -/
def occupied_headers (fs : FS) (dir : Str) (name : Str) : Option Bool :=
  fs.file_exists (path_append dir name)

/-- The text of the naming error:
`format_wxstr(L"Failed to find suitable filename. Last name: %1%.", path)`. -/
def naming_error_what (last_path : Str) : Str :=
  "Failed to find suitable filename. Last name: ".toList ++ last_path ++ ['.']

/-- The text of `e.what()` for a `filesystem_error`; it is implementation-defined, and a fixed
text stands for it. -/
def filesystem_error_what : Str := "boost::filesystem::status: Permission denied".toList

/-- The part of `get_perform` from `boost::filesystem::path dest_path` (line 188) to the call of
`Http::get`: opens the temporary file, returns with an Error notification when that fails, and
builds the request. -/
def open_and_request (s : State) : State × Option (OpenMode × HttpGet) :=
  let mode := if s.m_written = 0 then OpenMode.wb else OpenMode.ab
  match (if s.m_written = 0 then s.fs.fopen_wb s.m_tmp_path else s.fs.fopen_ab s.m_tmp_path) with
  | none =>
    ({ s with
        dest_path := path_append s.m_dest_folder s.m_filename,
        queue := s.queue ++ [EVT_DWNLDR_FILE_ERROR s.m_id
          ("Can't create file at ".toList ++ s.m_tmp_path)] }, none)
  | some file =>
    let range_string := to_string s.m_written ++ ['-']
    ({ s with
        dest_path := path_append s.m_dest_folder s.m_filename,
        fs := file,
        range_string := range_string,
        written_previously := s.m_written,
        written_this_session := 0 },
     some (mode, { url := s.m_url, size_limit := DOWNLOAD_SIZE_LIMIT, range := range_string }))

/-- Models `FileGet::priv::get_perform` up to the call of `Http::get`, in a process with id `pid`.  The
second component is `none` when it returns without a request (after the naming error, a
`filesystem_error` of a probe, or a failed `fopen`), and otherwise the mode the temporary file
was opened with and the request. -/
def get_perform (pid : Nat) (s0 : State) : State × Option (OpenMode × HttpGet) :=
  let s := { s0 with m_stopped := false }
  if s.m_written = 0 then
    let dest_path := path_append s.m_dest_folder s.m_filename
    let extension := path_extension dest_path
    let just_filename := s.m_filename.take (s.m_filename.length - extension.length)
    match find_unused (occupied_fresh s.fs s.m_dest_folder pid) just_filename extension
        1000 0 just_filename with
    | Search.exhausted final_filename =>
      ({ s with queue := s.queue ++ [EVT_DWNLDR_FILE_ERROR s.m_id
          (naming_error_what (path_append s.m_dest_folder (final_filename ++ extension)))] },
        none)
    | Search.failed =>
      ({ s with queue := s.queue ++ [EVT_DWNLDR_FILE_ERROR s.m_id filesystem_error_what] }, none)
    | Search.spent => (s, none)
    | Search.found final_filename =>
      let m_filename := final_filename ++ extension
      open_and_request { s with
        m_filename := m_filename,
        m_tmp_path := path_append s.m_dest_folder (m_filename ++ download_suffix pid),
        queue := s.queue ++ [EVT_DWNLDR_FILE_NAME_CHANGE s.m_id m_filename] }
  else open_and_request s

/-- The expression `m_absolute_size == 0 ? 0 : (written_previously + progress.dlnow) * 100 /
m_absolute_size`, computed in `size_t` and stored in an `int`. -/
def percent_total (m_absolute_size written_previously dlnow : Nat) : Int :=
  to_int (if m_absolute_size = 0 then 0
    else size_mul (size_add written_previously dlnow) 100 / m_absolute_size)

/-- The `on_progress` hook.  `cancel` is the transport's cancel signal, passed by reference; its
value on return is the second component.  The only exception the `try` block can meet in this
model is the `std::out_of_range` of `substr`; a fixed text stands for its `e.what()`. -/
def on_progress (s : State) (progress : Progress) (cancel : Bool) : State × Bool :=
  if s.m_stopped then (s, true)
  else if s.m_cancel then
    ({ s with
        m_stopped := true,
        fs := s.fs.remove s.m_tmp_path,
        m_written := 0,
        queue := s.queue ++ [EVT_DWNLDR_FILE_CANCELED s.m_id] }, true)
  else if s.m_pause then
    ({ s with
        m_stopped := true,
        fs := if s.m_written = 0 then s.fs.remove s.m_tmp_path else s.fs,
        queue := s.queue ++ [EVT_DWNLDR_FILE_PAUSED s.m_id] }, true)
  else
    let m_absolute_size :=
      if s.m_absolute_size < progress.dltotal then progress.dltotal else s.m_absolute_size
    if progress.dlnow ≠ 0 then
      let event := EVT_DWNLDR_FILE_PROGRESS s.m_id (to_string_int
        (percent_total m_absolute_size s.written_previously progress.dlnow))
      if size_sub progress.dlnow s.written_this_session > DOWNLOAD_MAX_CHUNK_SIZE
          ∨ progress.dlnow = progress.dltotal then
        match substr progress.buffer s.written_this_session progress.dlnow with
        | none =>
          ({ s with
              m_absolute_size := m_absolute_size,
              queue := s.queue ++ [EVT_DWNLDR_FILE_ERROR s.m_id "basic_string::substr".toList] },
            true)
        | some part_for_write =>
          ({ s with
              m_absolute_size := m_absolute_size,
              fs := s.fs.fwrite s.m_tmp_path part_for_write,
              written_this_session := progress.dlnow,
              m_written := size_add s.written_previously progress.dlnow,
              queue := s.queue ++ [event] }, cancel)
      else ({ s with m_absolute_size := m_absolute_size, queue := s.queue ++ [event] }, cancel)
    else ({ s with m_absolute_size := m_absolute_size }, cancel)

/-- The `on_headers` hook.  When the search is exhausted or a probe throws, the source only
writes to the log. -/
def on_headers (s : State) (headers : Str) : State :=
  let new_filename := extract_filename_from_header headers
  if new_filename = [] then s
  else
    let temp_dest_path := path_append s.m_dest_folder new_filename
    let extension := path_extension temp_dest_path
    let just_filename := new_filename.take (new_filename.length - extension.length)
    match find_unused (occupied_headers s.fs s.m_dest_folder) just_filename extension
        1000 0 just_filename with
    | Search.exhausted _ => s
    | Search.failed => s
    | Search.spent => s
    | Search.found final_filename =>
      let m_filename := final_filename ++ extension
      { s with
        m_filename := m_filename,
        dest_path := path_append s.m_dest_folder m_filename,
        queue := s.queue ++ [EVT_DWNLDR_FILE_NAME_CHANGE s.m_id m_filename] }

/-- The `on_error` hook. -/
def on_error (s : State) (body error : Str) (_http_status : Nat) : State :=
  { s with queue := s.queue ++ [EVT_DWNLDR_FILE_ERROR s.m_id (if error ≠ [] then error else body)] }

/-- The `on_complete` hook. -/
def on_complete (s : State) (body : Str) (_http_status : Nat) : State :=
  let fs1 := if s.written_this_session < body.length
    then s.fs.fwrite s.m_tmp_path (body.drop s.written_this_session) else s.fs
  match fs1.rename s.m_tmp_path s.dest_path with
  | none =>
    { s with
      fs := fs1,
      queue := s.queue ++ [EVT_DWNLDR_FILE_ERROR s.m_id ("Failed to write and move ".toList ++
        s.m_tmp_path ++ " to ".toList ++ s.dest_path)] }
  | some fs2 =>
    { s with
      fs := fs2,
      queue := s.queue ++ [EVT_DWNLDR_FILE_PROGRESS s.m_id (to_string_int 100),
        EVT_DWNLDR_FILE_COMPLETE s.m_id s.dest_path s.m_load_after] }

/-! ## The worker and the controller -/

/-- Modelled from the spec: the HTTP transport is not among the sources; it offers the hook
points on-headers, on-progress, on-error and on-complete.  This is one invocation of a hook by
the transport. -/
inductive HookCall where
  | progress (progress : Progress)
  | headers (headers : Str)
  | error (body error : Str) (http_status : Nat)
  | complete (body : Str) (http_status : Nat)
  deriving DecidableEq, Repr

/-- The worker serving one hook invocation. -/
def hook (s : State) : HookCall → State
  | HookCall.progress progress => (on_progress s progress false).1
  | HookCall.headers headers => on_headers s headers
  | HookCall.error body error http_status => on_error s body error http_status
  | HookCall.complete body http_status => on_complete s body http_status

/-- Modelled from the spec: `perform_sync` of the HTTP transport has "synchronous/blocking call
semantics from the worker's point of view": the worker serves the hook invocations the
transport makes, in order.  Which invocations it makes is left open: they are an argument. -/
def perform_sync (s : State) (calls : List HookCall) : State := calls.foldl hook s

/-- Models `m_io_thread.join()`: the worker serves the invocations still to come (`pending`) and
exits. -/
def join (s : State) (pending : List HookCall) : State :=
  { perform_sync s pending with joinable := false }

namespace FileGet

/-- Models `FileGet::get`, until the new worker has issued its request.  `pending` are the hook
invocations the previous worker still serves while it is joined. -/
def get (pid : Nat) (s : State) (pending : List HookCall) : State × Option (OpenMode × HttpGet) :=
  let s1 := if s.joinable then join { s with m_cancel := true } pending else s
  get_perform pid { s1 with m_cancel := false, m_pause := false, joinable := true }

/-- Models `FileGet::cancel`. -/
def cancel (s : State) (pending : List HookCall) : State :=
  let s1 :=
    if s.m_stopped then
      if s.joinable then
        let s2 := join { s with m_cancel := true } pending
        { s2 with queue := s2.queue ++ [EVT_DWNLDR_FILE_CANCELED s2.m_id] }
      else s
    else s
  { s1 with m_cancel := true }

/-- Models `FileGet::pause`. -/
def pause (s : State) : State := { s with m_pause := true }

/-- Models `FileGet::resume`, until the new worker has issued its request. -/
def resume (pid : Nat) (s : State) (pending : List HookCall) :
    State × Option (OpenMode × HttpGet) :=
  let s1 := if s.joinable then join { s with m_cancel := true } pending else s
  get_perform pid { s1 with m_cancel := false, m_pause := false, joinable := true }

end FileGet

/-- One poll of the worker: the controller has left the two request flags at the given values,
and the transport invokes the progress hook. -/
structure Poll where
  cancel_requested : Bool
  pause_requested : Bool
  progress : Progress
  deriving DecidableEq, Repr

/-- The controller's writes to the two request flags. -/
def set_requests (s : State) (cancel_requested pause_requested : Bool) : State :=
  { s with m_cancel := cancel_requested, m_pause := pause_requested }

/-- The state after one poll. -/
def poll (s : State) (x : Poll) : State :=
  (on_progress (set_requests s x.cancel_requested x.pause_requested) x.progress false).1

/-- The state after a sequence of polls. -/
def polls (s : State) (xs : List Poll) : State := xs.foldl poll s


/-! ## Notions used in the statements -/

/-- The `k`-th candidate stem of a name search: `just_filename` itself for `k = 0`, and
`just_filename(k)` after that. -/
def versioned (just_filename : Str) (k : Nat) : Str :=
  if k = 0 then just_filename else format_version just_filename k

/-- The search a fresh start runs, spelled out. -/
def fresh_search (pid : Nat) (s : State) : Search :=
  let extension := path_extension (path_append s.m_dest_folder s.m_filename)
  let just_filename := s.m_filename.take (s.m_filename.length - extension.length)
  find_unused (occupied_fresh s.fs s.m_dest_folder pid) just_filename extension 1000 0 just_filename

/-- The search the on-headers hook runs, spelled out. -/
def headers_search (s : State) (headers : Str) : Search :=
  let new_filename := extract_filename_from_header headers
  let extension := path_extension (path_append s.m_dest_folder new_filename)
  let just_filename := new_filename.take (new_filename.length - extension.length)
  find_unused (occupied_headers s.fs s.m_dest_folder) just_filename extension 1000 0 just_filename

/-- A path that is a direct child of the directory `dir`: `dir/name` for a name without
separator. -/
def is_direct_child (dir path : Str) : Prop :=
  ∃ name, '/' ∉ name ∧ path = path_append dir name

/-- The poll takes the cancel branch of the progress hook. -/
def takes_cancel_branch (s : State) (x : Poll) : Prop :=
  s.m_stopped = false ∧ x.cancel_requested = true

/-- The poll flushes: the hook reaches the `fwrite` and `substr` does not throw. -/
def flushes (s : State) (x : Poll) : Prop :=
  s.m_stopped = false ∧ x.cancel_requested = false ∧ x.pause_requested = false ∧
  x.progress.dlnow ≠ 0 ∧
  (size_sub x.progress.dlnow s.written_this_session > DOWNLOAD_MAX_CHUNK_SIZE ∨
    x.progress.dlnow = x.progress.dltotal) ∧
  s.written_this_session ≤ x.progress.buffer.length

/-- The invariant of a worker run with resume offset `wp` whose reports stay below `D`. -/
def run_inv (wp D : Nat) (s : State) : Prop :=
  s.written_previously = wp ∧ s.written_this_session ≤ D ∧
  (s.m_stopped = false → s.m_written = wp + s.written_this_session)

/-- The bytes `[lo, hi)` of a buffer. -/
def byte_range (b : Str) (lo hi : Nat) : Str := (b.take hi).drop lo

/-- The progress report of a transfer of the body `B` at the moment the transport announces
`dltotal` bytes and has received `dlnow` of them: the buffer is what has been received. -/
def report_of (B : Str) (r : Nat × Nat) : Progress :=
  { dltotal := r.1, dlnow := r.2, buffer := B.take r.2 }

/-- The progress-hook invocations of a transfer of the body `B`. -/
def progress_calls (B : Str) (reports : List (Nat × Nat)) : List HookCall :=
  reports.map (fun r => HookCall.progress (report_of B r))

/-- The invariant of a session that streams the body `B` after the bytes `P` and began in the
state `s0`: no stop, no request, the paths and the identity of the job are those of `s0`, the
temporary file holds `P` and the flushed part of `B`, and the directories and the paths that
cannot be accessed are those of `s0`. -/
def content_inv (s0 : State) (P B : Str) (s : State) : Prop :=
  s.m_stopped = false ∧ s.m_cancel = false ∧ s.m_pause = false ∧
  s.m_tmp_path = s0.m_tmp_path ∧ s.dest_path = s0.dest_path ∧
  s.m_id = s0.m_id ∧ s.m_load_after = s0.m_load_after ∧
  s.fs.files s0.m_tmp_path = some (P ++ B.take s.written_this_session) ∧
  s.fs.dirs = s0.fs.dirs ∧ s.fs.denied = s0.fs.denied

/-! ## Example jobs -/

/-- The directory `dl`, empty. -/
def empty_fs : FS :=
  { files := fun _ => none
    dirs := fun d => d == "dl".toList
    denied := fun _ => false
    parent_present := by
      intro p hp
      rcases hp with hp | hp
      · simp at hp
      · have h : p = "dl".toList := by simpa using hp
        subst h
        decide
    file_not_dir := by intro p hp; simp at hp
    file_not_denied := by intro p _; rfl }

/-- The directory `dl` with the file `model.stl` in it. -/
def example_fs : FS :=
  { files := fun p => if p = "dl/model.stl".toList then some "solid".toList else none
    dirs := fun d => d == "dl".toList
    denied := fun _ => false
    parent_present := by
      intro p hp
      rcases hp with hp | hp
      · by_cases h : p = "dl/model.stl".toList
        · subst h
          decide
        · have hp2 : (if p = "dl/model.stl".toList then some "solid".toList
              else none).isSome = true := hp
          rw [if_neg h] at hp2
          exact absurd hp2 (by decide)
      · have h : p = "dl".toList := by simpa using hp
        subst h
        decide
    file_not_dir := by
      intro p hp
      by_cases h : p = "dl/model.stl".toList
      · subst h
        decide
      · have hp2 : (if p = "dl/model.stl".toList then some "solid".toList
            else none).isSome = true := hp
        rw [if_neg h] at hp2
        exact absurd hp2 (by decide)
    file_not_denied := by intro p _; rfl }

/-- A filesystem in which every path is taken, by a directory. -/
def full_fs : FS :=
  { files := fun _ => none
    dirs := fun _ => true
    denied := fun _ => false
    parent_present := by intro p _; simp [dir_present]
    file_not_dir := by intro p hp; simp at hp
    file_not_denied := by intro p _; rfl }

/-- The job of the examples: download 7 of `model.stl` into the directory `dl`. -/
def example_job (fs : FS) : State :=
  priv_ctor 7 "https://files.example/model.stl".toList "model.stl".toList "dl".toList true fs

/-- Response headers whose `content-disposition` names the file `model.stl`. -/
def example_headers : Str :=
  "HTTP/1.1 200 OK\r\ncontent-disposition: attachment; filename=\"model.stl\"\r\n\r\n".toList

/-- Response headers whose `content-disposition` names a file outside the directory. -/
def traversal_headers : Str :=
  "HTTP/1.1 200 OK\r\ncontent-disposition: attachment; filename=\"../../evil.stl\"\r\n\r\n".toList

/-- A job in mid-transfer: `example_job` after `get` in an empty directory, in the process 1234. -/
def example_session : State := (FileGet.get 1234 (example_job empty_fs) []).1

/-- A first progress report of the transfer of `abcd`: two bytes received. -/
def example_progress_half : Progress := { dltotal := 4, dlnow := 2, buffer := "ab".toList }

/-- A progress report: the four bytes `abcd`, all the server announced. -/
def example_progress : Progress := { dltotal := 4, dlnow := 4, buffer := "abcd".toList }

/-- The poll of the transport after it was told to cancel: a report without data. -/
def dummy_progress : Progress := { dltotal := 0, dlnow := 0, buffer := [] }

/-- The example download paused before anything was flushed: two of four bytes were received
when the pause request is observed. -/
def example_paused_early : State :=
  hook (FileGet.pause (hook example_session (HookCall.progress example_progress_half)))
    (HookCall.progress dummy_progress)

/-- The example download, paused after its four bytes were flushed: `get`, a progress report
with all four bytes, `pause`, and the poll that observes the request. -/
def example_paused : State :=
  hook (FileGet.pause (hook (FileGet.get 1234 (example_job empty_fs) []).1
    (HookCall.progress example_progress))) (HookCall.progress dummy_progress)

/-- The paused example download, resumed. -/
def example_resumed : State := (FileGet.resume 1234 example_paused []).1

/-- A job in mid-transfer with 5 MiB flushed and a pause requested. -/
def five_mib_session : State :=
  { example_session with m_written := 5242880, m_pause := true }

/-- Response headers whose `content-disposition` names a file in the subdirectory `sub`. -/
def subdir_headers : Str :=
  "HTTP/1.1 200 OK\r\ncontent-disposition: attachment; filename=\"sub/evil.stl\"\r\n\r\n".toList

/-- The job in mid-transfer after the server named `sub/evil.stl`: the destination is in a
directory that does not exist. -/
def example_subdir : State := hook example_session (HookCall.headers subdir_headers)

/-- A job whose file name has a directory part: download 7 of `sub/model.stl` into `dl`. -/
def subdir_job (fs : FS) : State :=
  priv_ctor 7 "https://files.example/model.stl".toList "sub/model.stl".toList "dl".toList true fs

/-! ## The filesystem -/

theorem file_exists_true_iff (fs : FS) (p : Str) :
    fs.file_exists p = some true ↔
      fs.denied p = false ∧ ((fs.files p).isSome = true ∨ fs.dirs p = true) := by
  unfold FS.file_exists
  cases hd : fs.denied p <;> simp

theorem file_exists_false_iff (fs : FS) (p : Str) :
    fs.file_exists p = some false ↔
      fs.denied p = false ∧ fs.files p = none ∧ fs.dirs p = false := by
  unfold FS.file_exists
  cases hd : fs.denied p <;> simp

theorem dropWhile_append_of_all (q : Char → Bool) (l1 l2 : List Char)
    (h : ∀ c ∈ l1, q c = true) : (l1 ++ l2).dropWhile q = l2.dropWhile q := by
  induction l1 with
  | nil => rfl
  | cons a l ih =>
    have ha : q a = true := h a (List.mem_cons_self _ _)
    simp only [List.cons_append, List.dropWhile_cons, ha, if_true]
    exact ih (fun c hc => h c (List.mem_cons_of_mem _ hc))

/-- Characters without separator at the end of a path do not change its directory. -/
theorem path_parent_append (A Y : Str) (h : '/' ∉ Y) :
    path_parent (A ++ Y) = path_parent A := by
  unfold path_parent
  rw [List.reverse_append, dropWhile_append_of_all]
  intro c hc
  have hne : c ≠ '/' := fun e => h (e ▸ List.mem_reverse.mp hc)
  simpa using hne

/-- A file can be created next to an existing file or directory, at a free path. -/
theorem can_create_next_to (fs : FS) (p q : Str) (hp : fs.file_exists p = some true)
    (hq : fs.file_exists q = some false) (hpar : path_parent q = path_parent p) :
    fs.can_create q = true := by
  obtain ⟨_, hex⟩ := (file_exists_true_iff fs p).mp hp
  obtain ⟨h1, _, h3⟩ := (file_exists_false_iff fs q).mp hq
  have h4 := fs.parent_present p hex
  simp [FS.can_create, h1, h3, hpar, h4]

theorem put_files (fs : FS) (p data : Str) (h : fs.can_create p = true) (q : Str) :
    (fs.put p data h).files q = if q = p then some data else fs.files q := rfl

theorem fopen_wb_of_can_create (fs : FS) (p : Str) (h : fs.can_create p = true) :
    fs.fopen_wb p = some (fs.put p [] h) := by
  unfold FS.fopen_wb
  rw [dif_pos h]

theorem fopen_ab_of_can_create (fs : FS) (p : Str) (h : fs.can_create p = true) :
    fs.fopen_ab p = some (fs.put p ((fs.files p).getD []) h) := by
  unfold FS.fopen_ab
  rw [dif_pos h]

theorem fopen_wb_none (fs : FS) (p : Str) (h : fs.can_create p = false) :
    fs.fopen_wb p = none := by
  unfold FS.fopen_wb
  rw [dif_neg (by simp [h])]

theorem fopen_ab_none (fs : FS) (p : Str) (h : fs.can_create p = false) :
    fs.fopen_ab p = none := by
  unfold FS.fopen_ab
  rw [dif_neg (by simp [h])]

/-! ## Name search -/

theorem find_unused_found_at (occ : Str → Option Bool) (just ext : Str) (k : Nat) :
    ∀ (fuel v : Nat), v ≤ k → k ≤ 999 → k - v < fuel →
      (∀ j, v ≤ j → j < k → occ (versioned just j ++ ext) = some true) →
      occ (versioned just k ++ ext) = some false →
      find_unused occ just ext fuel v (versioned just v) = Search.found (versioned just k) := by
  intro fuel
  induction fuel with
  | zero => intro v _ _ h; omega
  | succ fuel ih =>
    intro v hvk hk hf hocc hfree
    rcases Nat.eq_or_lt_of_le hvk with rfl | hlt
    · simp [find_unused, hfree]
    · have h1 : occ (versioned just v ++ ext) = some true := hocc v le_rfl hlt
      have h2 : ¬ (999 < v + 1) := by omega
      have h3 : format_version just (v + 1) = versioned just (v + 1) := by simp [versioned]
      simp only [find_unused, h1, gt_iff_lt, h2, if_false, h3]
      exact ih (v + 1) (by omega) hk (by omega) (fun j hj hjk => hocc j (by omega) hjk) hfree

theorem find_unused_failed_at (occ : Str → Option Bool) (just ext : Str) (k : Nat) :
    ∀ (fuel v : Nat), v ≤ k → k ≤ 999 → k - v < fuel →
      (∀ j, v ≤ j → j < k → occ (versioned just j ++ ext) = some true) →
      occ (versioned just k ++ ext) = none →
      find_unused occ just ext fuel v (versioned just v) = Search.failed := by
  intro fuel
  induction fuel with
  | zero => intro v _ _ h; omega
  | succ fuel ih =>
    intro v hvk hk hf hocc hfail
    rcases Nat.eq_or_lt_of_le hvk with rfl | hlt
    · simp [find_unused, hfail]
    · have h1 : occ (versioned just v ++ ext) = some true := hocc v le_rfl hlt
      have h2 : ¬ (999 < v + 1) := by omega
      have h3 : format_version just (v + 1) = versioned just (v + 1) := by simp [versioned]
      simp only [find_unused, h1, gt_iff_lt, h2, if_false, h3]
      exact ih (v + 1) (by omega) hk (by omega) (fun j hj hjk => hocc j (by omega) hjk) hfail

theorem find_unused_exhausted_at (occ : Str → Option Bool) (just ext : Str) :
    ∀ (fuel v : Nat), v ≤ 999 → 999 - v < fuel →
      (∀ j, v ≤ j → j ≤ 999 → occ (versioned just j ++ ext) = some true) →
      find_unused occ just ext fuel v (versioned just v) = Search.exhausted (versioned just 999) := by
  intro fuel
  induction fuel with
  | zero => intro v _ h; omega
  | succ fuel ih =>
    intro v hv hf hocc
    have h1 : occ (versioned just v ++ ext) = some true := hocc v le_rfl hv
    rcases Nat.eq_or_lt_of_le hv with rfl | hlt
    · simp [find_unused, h1]
    · have h2 : ¬ (999 < v + 1) := by omega
      have h3 : format_version just (v + 1) = versioned just (v + 1) := by simp [versioned]
      simp only [find_unused, h1, gt_iff_lt, h2, if_false, h3]
      exact ih (v + 1) (by omega) (by omega) (fun j hj hjk => hocc j (by omega) hjk)

/-- The search from version 0 with 1000 probes: either every candidate is occupied and the search
is exhausted, or it stops at the first candidate that is not occupied, which it finds when the
loop condition is false there and fails on when the loop condition throws. -/
theorem find_unused_cases (occ : Str → Option Bool) (just ext : Str) :
    ((∀ j, j ≤ 999 → occ (versioned just j ++ ext) = some true) ∧
      find_unused occ just ext 1000 0 just = Search.exhausted (versioned just 999)) ∨
    (∃ k, k ≤ 999 ∧ (∀ j, j < k → occ (versioned just j ++ ext) = some true) ∧
      ((occ (versioned just k ++ ext) = some false ∧
          find_unused occ just ext 1000 0 just = Search.found (versioned just k)) ∨
        (occ (versioned just k ++ ext) = none ∧
          find_unused occ just ext 1000 0 just = Search.failed))) := by
  have h0 : versioned just 0 = just := by simp [versioned]
  by_cases hall : ∀ j, j ≤ 999 → occ (versioned just j ++ ext) = some true
  · left
    refine ⟨hall, ?_⟩
    have := find_unused_exhausted_at occ just ext 1000 0 (by omega) (by omega)
      (fun j _ hj => hall j hj)
    rwa [h0] at this
  · right
    have hex : ∃ k, k ≤ 999 ∧ occ (versioned just k ++ ext) ≠ some true := by
      by_contra hne
      apply hall
      intro j hj
      by_contra hj2
      exact hne ⟨j, hj, hj2⟩
    classical
    have hk := (Nat.find_spec hex).1
    have hlow : ∀ j, j < Nat.find hex → occ (versioned just j ++ ext) = some true := by
      intro j hj
      have := Nat.find_min hex hj
      by_contra hj2
      exact this ⟨by omega, hj2⟩
    refine ⟨Nat.find hex, hk, hlow, ?_⟩
    have hne := (Nat.find_spec hex).2
    cases hocc : occ (versioned just (Nat.find hex) ++ ext) with
    | none =>
      right
      refine ⟨rfl, ?_⟩
      have := find_unused_failed_at occ just ext (Nat.find hex) 1000 0 (by omega) hk (by omega)
        (fun j _ hj => hlow j hj) hocc
      rwa [h0] at this
    | some b =>
      cases b with
      | true => exact absurd hocc hne
      | false =>
        left
        refine ⟨rfl, ?_⟩
        have := find_unused_found_at occ just ext (Nat.find hex) 1000 0 (by omega) hk (by omega)
          (fun j _ hj => hlow j hj) hocc
        rwa [h0] at this

/-- The bound of 1000 probes is never reached by a search from version 0. -/
theorem find_unused_not_spent (occ : Str → Option Bool) (just ext : Str) :
    find_unused occ just ext 1000 0 just ≠ Search.spent := by
  rcases find_unused_cases occ just ext with ⟨_, h⟩ | ⟨k, _, _, ⟨_, h⟩ | ⟨_, h⟩⟩ <;>
    rw [h] <;> simp

/-! ## Path separators -/

theorem digitChar_ne_slash (n : Nat) : Nat.digitChar (n % 10) ≠ '/' := by
  have h : n % 10 < 10 := Nat.mod_lt _ (by decide)
  generalize n % 10 = m at h
  interval_cases m <;> decide

theorem toDigitsCore_no_slash :
    ∀ (fuel n : Nat) (ds : List Char), '/' ∉ ds → '/' ∉ Nat.toDigitsCore 10 fuel n ds := by
  intro fuel
  induction fuel with
  | zero => intro n ds h; simpa [Nat.toDigitsCore] using h
  | succ fuel ih =>
    intro n ds h
    have hd : '/' ∉ Nat.digitChar (n % 10) :: ds := by
      simp only [List.mem_cons, not_or]
      exact ⟨fun e => digitChar_ne_slash _ e.symm, h⟩
    unfold Nat.toDigitsCore
    simp only []
    split_ifs
    · exact hd
    · exact ih _ _ hd

theorem to_string_no_slash (n : Nat) : '/' ∉ to_string n := by
  unfold to_string Nat.toDigits
  exact toDigitsCore_no_slash _ _ _ (by simp)

theorem download_suffix_no_slash (pid : Nat) : '/' ∉ download_suffix pid := by
  have := to_string_no_slash pid
  simp [download_suffix, this]

theorem format_version_no_slash (just : Str) (k : Nat) (h : '/' ∉ just) :
    '/' ∉ format_version just k := by
  have := to_string_no_slash k
  simp [format_version, h, this]

theorem path_filename_no_slash (p : Str) : '/' ∉ path_filename p := by
  unfold path_filename
  have key : '/' ∉ (p.reverse.takeWhile (fun c => c != '/')).reverse := by
    intro hmem
    have := List.mem_takeWhile_imp (List.mem_reverse.mp hmem)
    simp at this
  split
  · simp
  · rename_i c t heq
    rw [← heq]; exact key

theorem path_extension_no_slash (p : Str) : '/' ∉ path_extension p := by
  have hf := path_filename_no_slash p
  unfold path_extension
  simp only
  split_ifs with h1 h2
  · simp
  · intro hmem
    simp only [List.mem_cons, List.mem_reverse] at hmem
    rcases hmem with h | h
    · exact absurd h (by decide)
    · exact hf (List.mem_reverse.mp ((List.takeWhile_sublist _).subset h))
  · simp

/-! ## The start of the worker -/

/-- The two ways `open_and_request` ends: with the temporary file opened and the request, or,
where the file cannot be created, with an Error notification and no request. -/
theorem open_and_request_cases (t : State) :
    (t.fs.can_create t.m_tmp_path = true ∧ ∃ file,
      (if t.m_written = 0 then t.fs.fopen_wb t.m_tmp_path
        else t.fs.fopen_ab t.m_tmp_path) = some file ∧
      open_and_request t =
        ({ t with
            dest_path := path_append t.m_dest_folder t.m_filename,
            fs := file,
            range_string := to_string t.m_written ++ ['-'],
            written_previously := t.m_written,
            written_this_session := 0 },
          some (if t.m_written = 0 then OpenMode.wb else OpenMode.ab,
            { url := t.m_url
              size_limit := DOWNLOAD_SIZE_LIMIT
              range := to_string t.m_written ++ ['-'] }))) ∨
    (t.fs.can_create t.m_tmp_path = false ∧
      open_and_request t =
        ({ t with
            dest_path := path_append t.m_dest_folder t.m_filename,
            queue := t.queue ++ [EVT_DWNLDR_FILE_ERROR t.m_id
              ("Can't create file at ".toList ++ t.m_tmp_path)] }, none)) := by
  rcases Bool.eq_false_or_eq_true (t.fs.can_create t.m_tmp_path) with h | h
  · left
    refine ⟨h, ?_⟩
    by_cases h0 : t.m_written = 0
    · refine ⟨_, by rw [if_pos h0]; exact fopen_wb_of_can_create _ _ h, ?_⟩
      unfold open_and_request
      simp only [h0, if_true, fopen_wb_of_can_create _ _ h]
    · refine ⟨_, by rw [if_neg h0]; exact fopen_ab_of_can_create _ _ h, ?_⟩
      unfold open_and_request
      simp only [h0, if_false, fopen_ab_of_can_create _ _ h]
  · right
    refine ⟨h, ?_⟩
    unfold open_and_request
    by_cases h0 : t.m_written = 0
    · simp only [h0, if_true, fopen_wb_none _ _ h]
    · simp only [h0, if_false, fopen_ab_none _ _ h]

/-- What `open_and_request` never changes, and how it ends when it issues the request. -/
theorem open_and_request_keeps (t : State) :
    (open_and_request t).1.m_filename = t.m_filename ∧
    (open_and_request t).1.m_tmp_path = t.m_tmp_path ∧
    (open_and_request t).1.m_written = t.m_written ∧
    (open_and_request t).1.m_stopped = t.m_stopped ∧
    (open_and_request t).1.dest_path = path_append t.m_dest_folder t.m_filename ∧
    ((open_and_request t).2 ≠ none →
      t.fs.can_create t.m_tmp_path = true ∧
      (open_and_request t).1.queue = t.queue ∧
      (open_and_request t).1.written_previously = t.m_written ∧
      (open_and_request t).1.written_this_session = 0) := by
  rcases open_and_request_cases t with ⟨h, file, _, heq⟩ | ⟨h, heq⟩
  · rw [heq]
    exact ⟨rfl, rfl, rfl, rfl, rfl, fun _ => ⟨h, rfl, rfl, rfl⟩⟩
  · rw [heq]
    exact ⟨rfl, rfl, rfl, rfl, rfl, fun hne => absurd rfl hne⟩

theorem get_perform_of_found (pid : Nat) (s : State) (f : Str) (h0 : s.m_written = 0)
    (h : fresh_search pid s = Search.found f) :
    get_perform pid s =
      open_and_request { s with
        m_stopped := false
        m_filename := f ++ path_extension (path_append s.m_dest_folder s.m_filename),
        m_tmp_path := path_append s.m_dest_folder
          (f ++ path_extension (path_append s.m_dest_folder s.m_filename) ++ download_suffix pid),
        queue := s.queue ++ [EVT_DWNLDR_FILE_NAME_CHANGE s.m_id
          (f ++ path_extension (path_append s.m_dest_folder s.m_filename))] } := by
  unfold fresh_search at h
  simp only [get_perform, h0, if_true]
  simp only [h]

theorem get_perform_of_exhausted (pid : Nat) (s : State) (f : Str) (h0 : s.m_written = 0)
    (h : fresh_search pid s = Search.exhausted f) :
    get_perform pid s =
      ({ s with
          m_stopped := false
          queue := s.queue ++ [EVT_DWNLDR_FILE_ERROR s.m_id
            (naming_error_what (path_append s.m_dest_folder
              (f ++ path_extension (path_append s.m_dest_folder s.m_filename))))] },
        none) := by
  unfold fresh_search at h
  simp only [get_perform, h0, if_true]
  simp only [h]

theorem get_perform_of_failed (pid : Nat) (s : State) (h0 : s.m_written = 0)
    (h : fresh_search pid s = Search.failed) :
    get_perform pid s =
      ({ s with
          m_stopped := false
          queue := s.queue ++ [EVT_DWNLDR_FILE_ERROR s.m_id filesystem_error_what] },
        none) := by
  unfold fresh_search at h
  simp only [get_perform, h0, if_true]
  simp only [h]

theorem take_stem (S E : Str) : (S ++ E).take ((S ++ E).length - E.length) = S := by
  simp

theorem fresh_search_of_split (pid : Nat) (s : State) (S E : Str)
    (hname : s.m_filename = S ++ E)
    (hext : path_extension (path_append s.m_dest_folder (S ++ E)) = E) :
    fresh_search pid s =
      find_unused (occupied_fresh s.fs s.m_dest_folder pid) S E 1000 0 S := by
  unfold fresh_search
  simp only [hname, hext, take_stem]

theorem occupied_fresh_true_iff (fs : FS) (dir : Str) (pid : Nat) (name : Str) :
    occupied_fresh fs dir pid name = some true ↔
      (fs.file_exists (path_append dir name) = some true ∨
        (fs.file_exists (path_append dir name) = some false ∧
          fs.file_exists (path_append dir (name ++ download_suffix pid)) = some true)) := by
  unfold occupied_fresh
  cases h : fs.file_exists (path_append dir name) with
  | none => simp
  | some b => cases b <;> simp

theorem occupied_fresh_false_iff (fs : FS) (dir : Str) (pid : Nat) (name : Str) :
    occupied_fresh fs dir pid name = some false ↔
      (fs.file_exists (path_append dir name) = some false ∧
        fs.file_exists (path_append dir (name ++ download_suffix pid)) = some false) := by
  unfold occupied_fresh
  cases h : fs.file_exists (path_append dir name) with
  | none => simp
  | some b => cases b <;> simp

/-- The temporary file of every candidate of a name search goes to the directory of the file
name the search starts from. -/
theorem temporary_parent (dir S E : Str) (pid k : Nat)
    (hext : path_extension (path_append dir (S ++ E)) = E) :
    path_parent (path_append dir (versioned S k ++ E ++ download_suffix pid)) =
      path_parent (path_append dir (S ++ E)) := by
  have hE : '/' ∉ E := by rw [← hext]; exact path_extension_no_slash _
  have hsuf := download_suffix_no_slash pid
  have hnum := to_string_no_slash k
  have h1 : path_append dir (S ++ E) = (dir ++ '/' :: S) ++ E := by simp [path_append]
  rw [h1, path_parent_append _ _ hE]
  by_cases hk : k = 0
  · have h2 : path_append dir (versioned S k ++ E ++ download_suffix pid) =
        (dir ++ '/' :: S) ++ (E ++ download_suffix pid) := by
      simp [path_append, versioned, hk]
    rw [h2, path_parent_append _ _ (by simp [hE, hsuf])]
  · have h2 : path_append dir (versioned S k ++ E ++ download_suffix pid) =
        (dir ++ '/' :: S) ++ ('(' :: (to_string k ++ [')']) ++ E ++ download_suffix pid) := by
      simp [path_append, versioned, hk, format_version]
    rw [h2, path_parent_append _ _ (by simp [hE, hsuf, hnum])]

/-- Claim C1.  Fresh start (`m_written = 0`) of a job whose file name splits into the stem `S`
and the extension `E`, with `N ≤ 998`: if the destination directory contains `S+E` and
`S(1)+E`, ..., `S(N)+E`, and contains neither `S(N+1)+E` nor `S(N+1)+E.<pid>.download`, then
`get_perform` sets the file name to `S(N+1)+E`, the temporary path to
`<dir>/S(N+1)+E.<pid>.download`, and queues one FilenameChanged notification that carries
`S(N+1)+E`, and nothing else.  What the directory contains is what `exists` reports. -/
theorem collision_resolution_picks_next_version (pid : Nat) (s : State) (S E : Str) (N : Nat)
    (hfresh : s.m_written = 0)
    (hname : s.m_filename = S ++ E)
    (hext : path_extension (path_append s.m_dest_folder (S ++ E)) = E)
    (hN : N ≤ 998)
    (hbase : s.fs.file_exists (path_append s.m_dest_folder (S ++ E)) = some true)
    (hocc : ∀ k, 1 ≤ k → k ≤ N →
      s.fs.file_exists (path_append s.m_dest_folder (format_version S k ++ E)) = some true)
    (hfree : s.fs.file_exists
      (path_append s.m_dest_folder (format_version S (N + 1) ++ E)) = some false)
    (hfreetmp : s.fs.file_exists (path_append s.m_dest_folder
      (format_version S (N + 1) ++ E ++ download_suffix pid)) = some false) :
    (get_perform pid s).1.m_filename = format_version S (N + 1) ++ E ∧
    (get_perform pid s).1.m_tmp_path =
      path_append s.m_dest_folder (format_version S (N + 1) ++ E ++ download_suffix pid) ∧
    (get_perform pid s).1.queue =
      s.queue ++ [EVT_DWNLDR_FILE_NAME_CHANGE s.m_id (format_version S (N + 1) ++ E)] := by
  have hv : versioned S (N + 1) = format_version S (N + 1) := by simp [versioned]
  have hs : fresh_search pid s = Search.found (format_version S (N + 1)) := by
    rw [fresh_search_of_split pid s S E hname hext]
    have := find_unused_found_at (occupied_fresh s.fs s.m_dest_folder pid) S E (N + 1) 1000 0
      (by omega) (by omega) (by omega)
      (fun j _ hj => by
        rw [occupied_fresh_true_iff]
        left
        rcases Nat.eq_zero_or_pos j with rfl | hpos
        · simpa [versioned] using hbase
        · have hj0 : j ≠ 0 := by omega
          simpa [versioned, hj0] using hocc j hpos (by omega))
      (by
        rw [occupied_fresh_false_iff, hv]
        exact ⟨hfree, hfreetmp⟩)
    simpa [versioned] using this
  have hcreate : s.fs.can_create (path_append s.m_dest_folder
      (format_version S (N + 1) ++ E ++ download_suffix pid)) = true := by
    apply can_create_next_to s.fs _ _ hbase hfreetmp
    rw [← hv]
    exact temporary_parent _ _ _ _ _ hext
  rw [get_perform_of_found pid s _ hfresh hs]
  simp only [hname, hext]
  generalize ht : ({ s with
    m_stopped := false
    m_filename := format_version S (N + 1) ++ E
    m_tmp_path := path_append s.m_dest_folder
      (format_version S (N + 1) ++ E ++ download_suffix pid)
    queue := s.queue ++ [EVT_DWNLDR_FILE_NAME_CHANGE s.m_id
      (format_version S (N + 1) ++ E)] } : State) = t
  have hc : t.fs.can_create t.m_tmp_path = true := by rw [← ht]; exact hcreate
  obtain ⟨k1, k2, _, _, _, k6⟩ := open_and_request_keeps t
  rcases open_and_request_cases t with ⟨_, file, _, heq⟩ | ⟨hno, _⟩
  · have hsome : (open_and_request t).2 ≠ none := by rw [heq]; simp
    refine ⟨?_, ?_, ?_⟩
    · rw [k1, ← ht]
    · rw [k2, ← ht]
    · rw [(k6 hsome).2.1, ← ht]
  · rw [hc] at hno
    exact absurd hno (by simp)

theorem collision_resolution_picks_next_version_witness :
    (get_perform 1234 (example_job example_fs)).1.m_filename = "model(1).stl".toList ∧
    (get_perform 1234 (example_job example_fs)).1.m_tmp_path =
      "dl/model(1).stl.1234.download".toList ∧
    (get_perform 1234 (example_job example_fs)).1.queue =
      [EVT_DWNLDR_FILE_NAME_CHANGE 7 "model(1).stl".toList] :=
  collision_resolution_picks_next_version 1234 (example_job example_fs)
    "model".toList ".stl".toList 0 (by decide) (by decide) (by decide) (by decide) (by decide)
    (fun k h1 h2 => absurd h1 (by omega)) (by decide) (by decide)

theorem naming_error_ne_filesystem_error (last : Str) :
    naming_error_what last ≠ filesystem_error_what := by
  intro h
  simp [naming_error_what, filesystem_error_what] at h

/-- Claim C6.  Fresh start of a job whose file name splits into the stem `S` and the extension
`E`.  `get_perform` queues the naming error if and only if the loop finds every one of the 1000
candidates `S+E`, `S(1)+E`, ..., `S(999)+E` occupied (the file exists, or it does not and its
`.<pid>.download` temporary exists).  When it does, that Error notification is all it has
queued, there is no request, and file name, temporary path, `m_written` and the filesystem are
unchanged.  When `S(999)+E` is the only free candidate, the file name becomes `S(999)+E`, one
FilenameChanged notification is queued, and the request is issued. -/
theorem naming_exhaustion_boundary (pid : Nat) (s : State) (S E : Str)
    (hfresh : s.m_written = 0)
    (hname : s.m_filename = S ++ E)
    (hext : path_extension (path_append s.m_dest_folder (S ++ E)) = E) :
    ((∃ last, (get_perform pid s).1.queue =
        s.queue ++ [EVT_DWNLDR_FILE_ERROR s.m_id (naming_error_what last)]) ↔
      ∀ k, k ≤ 999 →
        (s.fs.file_exists (path_append s.m_dest_folder (versioned S k ++ E)) = some true ∨
          (s.fs.file_exists (path_append s.m_dest_folder (versioned S k ++ E)) = some false ∧
            s.fs.file_exists (path_append s.m_dest_folder
              (versioned S k ++ E ++ download_suffix pid)) = some true))) ∧
    ((∃ last, (get_perform pid s).1.queue =
        s.queue ++ [EVT_DWNLDR_FILE_ERROR s.m_id (naming_error_what last)]) →
      (get_perform pid s).2 = none ∧
      (get_perform pid s).1.queue = s.queue ++ [EVT_DWNLDR_FILE_ERROR s.m_id
        (naming_error_what (path_append s.m_dest_folder (versioned S 999 ++ E)))] ∧
      (get_perform pid s).1.m_filename = s.m_filename ∧
      (get_perform pid s).1.m_tmp_path = s.m_tmp_path ∧
      (get_perform pid s).1.m_written = s.m_written ∧
      (get_perform pid s).1.fs = s.fs) ∧
    ((∀ k, k < 999 →
        (s.fs.file_exists (path_append s.m_dest_folder (versioned S k ++ E)) = some true ∨
          (s.fs.file_exists (path_append s.m_dest_folder (versioned S k ++ E)) = some false ∧
            s.fs.file_exists (path_append s.m_dest_folder
              (versioned S k ++ E ++ download_suffix pid)) = some true))) →
      s.fs.file_exists (path_append s.m_dest_folder (versioned S 999 ++ E)) = some false →
      s.fs.file_exists (path_append s.m_dest_folder
        (versioned S 999 ++ E ++ download_suffix pid)) = some false →
      (get_perform pid s).2 ≠ none ∧
      (get_perform pid s).1.m_filename = versioned S 999 ++ E ∧
      (get_perform pid s).1.queue =
        s.queue ++ [EVT_DWNLDR_FILE_NAME_CHANGE s.m_id (versioned S 999 ++ E)]) := by
  have hsearch := fresh_search_of_split pid s S E hname hext
  have hocc : ∀ k, occupied_fresh s.fs s.m_dest_folder pid (versioned S k ++ E) = some true ↔
      (s.fs.file_exists (path_append s.m_dest_folder (versioned S k ++ E)) = some true ∨
        (s.fs.file_exists (path_append s.m_dest_folder (versioned S k ++ E)) = some false ∧
          s.fs.file_exists (path_append s.m_dest_folder
            (versioned S k ++ E ++ download_suffix pid)) = some true)) :=
    fun k => occupied_fresh_true_iff _ _ _ _
  rcases find_unused_cases (occupied_fresh s.fs s.m_dest_folder pid) S E with
    ⟨hall, hres⟩ | ⟨k, hk, hlow, ⟨hfree, hres⟩ | ⟨hthrow, hres⟩⟩
  · -- every candidate is occupied
    have hgp := get_perform_of_exhausted pid s _ hfresh (hsearch.trans hres)
    have hq : ∃ last, (get_perform pid s).1.queue =
        s.queue ++ [EVT_DWNLDR_FILE_ERROR s.m_id (naming_error_what last)] := by
      rw [hgp]; exact ⟨_, rfl⟩
    refine ⟨⟨fun _ j hj => (hocc j).mp (hall j hj), fun _ => hq⟩, ?_, ?_⟩
    · intro _
      rw [hgp]
      refine ⟨rfl, ?_, rfl, rfl, rfl, rfl⟩
      simp [hname, hext]
    · intro _ h1 h2
      rcases (hocc 999).mp (hall 999 le_rfl) with h | ⟨_, h⟩
      · rw [h1] at h
        exact absurd h (by simp)
      · rw [h2] at h
        exact absurd h (by simp)
  · -- candidate k is the first free one
    have hgp := get_perform_of_found pid s _ hfresh (hsearch.trans hres)
    obtain ⟨hf1, hf2⟩ := (occupied_fresh_false_iff _ _ _ _).mp hfree
    have hnot : ¬ ∀ j, j ≤ 999 →
        (s.fs.file_exists (path_append s.m_dest_folder (versioned S j ++ E)) = some true ∨
          (s.fs.file_exists (path_append s.m_dest_folder (versioned S j ++ E)) = some false ∧
            s.fs.file_exists (path_append s.m_dest_folder
              (versioned S j ++ E ++ download_suffix pid)) = some true)) := by
      intro h
      have := (hocc k).mpr (h k hk)
      rw [hfree] at this
      simp at this
    obtain ⟨k1, k2, _, _, _, k6⟩ := open_and_request_keeps { s with
        m_stopped := false
        m_filename := versioned S k ++ path_extension (path_append s.m_dest_folder s.m_filename)
        m_tmp_path := path_append s.m_dest_folder
          (versioned S k ++ path_extension (path_append s.m_dest_folder s.m_filename) ++
            download_suffix pid)
        queue := s.queue ++ [EVT_DWNLDR_FILE_NAME_CHANGE s.m_id
          (versioned S k ++ path_extension (path_append s.m_dest_folder s.m_filename))] }
    have hqueue : ∃ extra, (get_perform pid s).1.queue =
        s.queue ++ EVT_DWNLDR_FILE_NAME_CHANGE s.m_id (versioned S k ++ E) :: extra := by
      rw [hgp]
      rcases open_and_request_cases { s with
        m_stopped := false
        m_filename := versioned S k ++ path_extension (path_append s.m_dest_folder s.m_filename)
        m_tmp_path := path_append s.m_dest_folder
          (versioned S k ++ path_extension (path_append s.m_dest_folder s.m_filename) ++
            download_suffix pid)
        queue := s.queue ++ [EVT_DWNLDR_FILE_NAME_CHANGE s.m_id
          (versioned S k ++ path_extension (path_append s.m_dest_folder s.m_filename))] } with
        ⟨_, file, _, heq⟩ | ⟨_, heq⟩
      · rw [heq]
        simp only [hname, hext]
        exact ⟨[], rfl⟩
      · rw [heq]
        simp only [hname, hext]
        exact ⟨_, List.append_assoc _ _ _⟩
    have hnoq : ¬ ∃ last, (get_perform pid s).1.queue =
        s.queue ++ [EVT_DWNLDR_FILE_ERROR s.m_id (naming_error_what last)] := by
      rintro ⟨last, hl⟩
      obtain ⟨extra, he⟩ := hqueue
      rw [he] at hl
      have := List.append_cancel_left hl
      simp at this
    refine ⟨⟨fun h => absurd h hnoq, fun h => absurd h hnot⟩, fun h => absurd h hnoq, ?_⟩
    intro hlow9 h1 h2
    have hk9 : k = 999 := by
      by_contra hne
      have hlt : k < 999 := by omega
      have := (hocc k).mpr (hlow9 k hlt)
      rw [hfree] at this
      simp at this
    subst hk9
    have hparent : ∃ p, s.fs.file_exists p = some true ∧
        path_parent p = path_parent (path_append s.m_dest_folder (S ++ E)) := by
      rcases hlow9 0 (by omega) with h | ⟨_, h⟩
      · exact ⟨_, h, by simp [versioned]⟩
      · exact ⟨_, h, temporary_parent _ _ _ _ _ hext⟩
    obtain ⟨p, hp1, hp2⟩ := hparent
    have hcreate : s.fs.can_create (path_append s.m_dest_folder
        (versioned S 999 ++ E ++ download_suffix pid)) = true :=
      can_create_next_to s.fs p _ hp1 h2 ((temporary_parent _ _ _ _ _ hext).trans hp2.symm)
    rw [hgp]
    simp only [hname, hext] at k1 k2 k6 ⊢
    generalize ht : ({ s with
      m_stopped := false
      m_filename := versioned S 999 ++ E
      m_tmp_path := path_append s.m_dest_folder (versioned S 999 ++ E ++ download_suffix pid)
      queue := s.queue ++ [EVT_DWNLDR_FILE_NAME_CHANGE s.m_id (versioned S 999 ++ E)] } :
        State) = t at k1 k2 k6 ⊢
    have hc : t.fs.can_create t.m_tmp_path = true := by rw [← ht]; exact hcreate
    rcases open_and_request_cases t with ⟨_, file, _, heq⟩ | ⟨hno, _⟩
    · have hsome : (open_and_request t).2 ≠ none := by rw [heq]; simp
      exact ⟨hsome, k1, (k6 hsome).2.1⟩
    · rw [hc] at hno
      exact absurd hno (by simp)
  · -- the loop condition throws at candidate k
    have hgp := get_perform_of_failed pid s hfresh (hsearch.trans hres)
    have hnot : ¬ ∀ j, j ≤ 999 →
        (s.fs.file_exists (path_append s.m_dest_folder (versioned S j ++ E)) = some true ∨
          (s.fs.file_exists (path_append s.m_dest_folder (versioned S j ++ E)) = some false ∧
            s.fs.file_exists (path_append s.m_dest_folder
              (versioned S j ++ E ++ download_suffix pid)) = some true)) := by
      intro h
      have := (hocc k).mpr (h k hk)
      rw [hthrow] at this
      simp at this
    have hnoq : ¬ ∃ last, (get_perform pid s).1.queue =
        s.queue ++ [EVT_DWNLDR_FILE_ERROR s.m_id (naming_error_what last)] := by
      rintro ⟨last, hl⟩
      rw [hgp] at hl
      have := List.append_cancel_left hl
      simp only [List.cons.injEq, Event.EVT_DWNLDR_FILE_ERROR.injEq, true_and, and_true] at this
      exact naming_error_ne_filesystem_error last this.symm
    refine ⟨⟨fun h => absurd h hnoq, fun h => absurd h hnot⟩, fun h => absurd h hnoq, ?_⟩
    intro hlow9 h1 h2
    exfalso
    have hk9 : k = 999 := by
      by_contra hne
      have hlt : k < 999 := by omega
      have := (hocc k).mpr (hlow9 k hlt)
      rw [hthrow] at this
      simp at this
    subst hk9
    have := (occupied_fresh_false_iff s.fs s.m_dest_folder pid (versioned S 999 ++ E)).mpr
      ⟨h1, h2⟩
    rw [hthrow] at this
    simp at this

theorem naming_exhaustion_boundary_witness :
    (get_perform 1234 (example_job full_fs)).2 = none ∧
    (get_perform 1234 (example_job full_fs)).1.queue =
      (example_job full_fs).queue ++ [EVT_DWNLDR_FILE_ERROR 7
        (naming_error_what (path_append "dl".toList
          (versioned "model".toList 999 ++ ".stl".toList)))] :=
  have h := naming_exhaustion_boundary 1234 (example_job full_fs) "model".toList ".stl".toList
    (by decide) (by decide) (by decide)
  have hq := h.1.mpr (fun _ _ => Or.inl rfl)
  ⟨(h.2.1 hq).1, (h.2.1 hq).2.1⟩

/-- A failed `fopen`: for the name `sub/model.stl` in the empty directory `dl` the search takes
the first candidate, the name is announced, the temporary file cannot be created in the missing
directory `dl/sub`, so an Error notification is queued and no request is issued. -/
theorem get_perform_missing_directory :
    (get_perform 1234 (subdir_job empty_fs)).2 = none ∧
    (get_perform 1234 (subdir_job empty_fs)).1.queue =
      [EVT_DWNLDR_FILE_NAME_CHANGE 7 "sub/model.stl".toList,
        EVT_DWNLDR_FILE_ERROR 7 "Can't create file at dl/sub/model.stl.1234.download".toList] ∧
    (get_perform 1234 (subdir_job empty_fs)).1.m_tmp_path =
      "dl/sub/model.stl.1234.download".toList ∧
    (get_perform 1234 (subdir_job empty_fs)).1.fs.files
      "dl/sub/model.stl.1234.download".toList = none := by
  decide

theorem find_unused_found_free (occ : Str → Option Bool) (just ext f : Str) :
    ∀ (fuel v : Nat) (final : Str),
      find_unused occ just ext fuel v final = Search.found f →
        occ (f ++ ext) = some false := by
  intro fuel
  induction fuel with
  | zero => intro v final h; simp [find_unused] at h
  | succ fuel ih =>
    intro version final h
    unfold find_unused at h
    cases hocc : occ (final ++ ext) with
    | none => simp [hocc] at h
    | some b =>
      cases b with
      | true =>
        simp only [hocc] at h
        by_cases hv : version + 1 > 999
        · simp [hv] at h
        · simp only [hv, if_false] at h
          exact ih _ _ h
      | false =>
        simp only [hocc] at h
        simp at h
        rw [← h]
        exact hocc

theorem get_perform_request_search (pid : Nat) (s : State) (h0 : s.m_written = 0)
    (h : (get_perform pid s).2 ≠ none) :
    ∃ f, fresh_search pid s = Search.found f := by
  cases hs : fresh_search pid s with
  | found f => exact ⟨f, rfl⟩
  | exhausted f => rw [get_perform_of_exhausted pid s f h0 hs] at h; exact absurd rfl h
  | failed => rw [get_perform_of_failed pid s h0 hs] at h; exact absurd rfl h
  | spent =>
    exfalso
    apply h
    unfold fresh_search at hs
    simp only [get_perform, h0, if_true]
    simp only [hs]

theorem on_headers_name_change (s : State) (headers R : Str)
    (h : (on_headers s headers).queue = s.queue ++ [EVT_DWNLDR_FILE_NAME_CHANGE s.m_id R]) :
    (on_headers s headers).m_filename = R ∧
    (on_headers s headers).dest_path = path_append s.m_dest_folder R ∧
    ∃ f, headers_search s headers = Search.found f ∧
      R = f ++ path_extension (path_append s.m_dest_folder
        (extract_filename_from_header headers)) := by
  unfold headers_search
  unfold on_headers at h ⊢
  by_cases hn : extract_filename_from_header headers = []
  · simp [hn] at h
  · simp only [hn, if_false] at h ⊢
    split at h
    · simp at h
    · simp at h
    · simp at h
    · rename_i f hf
      simp at h
      simp only [hf]
      exact ⟨h, by rw [h], f, rfl, h.symm⟩

/-- Claim C2, counterexample.  The example download is started in an empty directory, so its
temporary file `dl/model.stl.1234.download` exists when the response headers arrive; the server
names the file `model.stl`; the on-headers hook resolves the name to `model.stl`, although the
temporary file of that name exists at that moment. -/
theorem headers_search_picks_name_with_temporary :
    (on_headers (get_perform 1234 (example_job empty_fs)).1 example_headers).queue =
      (get_perform 1234 (example_job empty_fs)).1.queue ++
        [EVT_DWNLDR_FILE_NAME_CHANGE 7 "model.stl".toList] ∧
    (on_headers (get_perform 1234 (example_job empty_fs)).1 example_headers).m_filename =
      "model.stl".toList ∧
    (get_perform 1234 (example_job empty_fs)).1.fs.file_exists
      (path_append "dl".toList ("model.stl".toList ++ download_suffix 1234)) = some true := by
  decide

/-- Claim C2, amended.  When the name search of a fresh start succeeds (the request is issued),
neither `<dir>/R` nor `<dir>/R.<pid>.download` exists for the resolved name `R` in the directory
as it is when the search runs.  When the name search of the on-headers hook succeeds (it queues
the FilenameChanged notification with the name `R`), `<dir>/R` does not exist at that time. -/
theorem resolved_name_is_free (pid : Nat) (s : State) (headers R : Str) :
    (s.m_written = 0 → (get_perform pid s).2 ≠ none →
      s.fs.file_exists
        (path_append s.m_dest_folder (get_perform pid s).1.m_filename) = some false ∧
      s.fs.file_exists (path_append s.m_dest_folder
        ((get_perform pid s).1.m_filename ++ download_suffix pid)) = some false) ∧
    ((on_headers s headers).queue = s.queue ++ [EVT_DWNLDR_FILE_NAME_CHANGE s.m_id R] →
      (on_headers s headers).m_filename = R ∧
      s.fs.file_exists (path_append s.m_dest_folder R) = some false) := by
  constructor
  · intro h0 hreq
    obtain ⟨f, hf⟩ := get_perform_request_search pid s h0 hreq
    have hfree := find_unused_found_free _ _ _ _ _ _ _ hf
    rw [occupied_fresh_false_iff] at hfree
    rw [get_perform_of_found pid s f h0 hf, (open_and_request_keeps _).1]
    exact hfree
  · intro h
    obtain ⟨h1, _, f, hf, hR⟩ := on_headers_name_change s headers R h
    have hfree := find_unused_found_free _ _ _ _ _ _ _ hf
    refine ⟨h1, ?_⟩
    rw [hR]
    exact hfree

theorem resolved_name_is_free_witness :
    (example_fs.file_exists (path_append "dl".toList "model(1).stl".toList) = some false ∧
      example_fs.file_exists (path_append "dl".toList
        ("model(1).stl".toList ++ download_suffix 1234)) = some false) ∧
    ((on_headers (get_perform 1234 (example_job example_fs)).1 example_headers).m_filename =
        "model(1).stl".toList ∧
      (get_perform 1234 (example_job example_fs)).1.fs.file_exists
        (path_append "dl".toList "model(1).stl".toList) = some false) :=
  ⟨(resolved_name_is_free 1234 (example_job example_fs) [] []).1 (by decide) (by decide),
   (resolved_name_is_free 1234 (get_perform 1234 (example_job example_fs)).1 example_headers
      "model(1).stl".toList).2 (by decide)⟩

theorem find_unused_found_shape (occ : Str → Option Bool) (just ext f : Str) :
    ∀ (fuel v : Nat) (final : Str),
      find_unused occ just ext fuel v final = Search.found f →
      f = final ∨ ∃ k, f = format_version just k := by
  intro fuel
  induction fuel with
  | zero => intro v final h; simp [find_unused] at h
  | succ fuel ih =>
    intro version final h
    unfold find_unused at h
    cases hocc : occ (final ++ ext) with
    | none => simp [hocc] at h
    | some b =>
      cases b with
      | true =>
        simp only [hocc] at h
        by_cases hv : version + 1 > 999
        · simp [hv] at h
        · simp only [hv, if_false] at h
          rcases ih _ _ h with h1 | h1
          · exact Or.inr ⟨_, h1⟩
          · exact Or.inr h1
      | false =>
        simp only [hocc] at h
        simp at h
        exact Or.inl h.symm

theorem found_no_slash (occ : Str → Option Bool) (name dir f : Str) (fuel v : Nat)
    (hname : '/' ∉ name)
    (h : find_unused occ (name.take (name.length - (path_extension (path_append dir name)).length))
      (path_extension (path_append dir name)) fuel v
      (name.take (name.length - (path_extension (path_append dir name)).length))
        = Search.found f) :
    '/' ∉ f ++ path_extension (path_append dir name) := by
  have hjust : '/' ∉ name.take (name.length - (path_extension (path_append dir name)).length) :=
    fun hmem => hname (List.mem_of_mem_take hmem)
  have hf : '/' ∉ f := by
    rcases find_unused_found_shape _ _ _ _ _ _ _ h with h1 | ⟨k, h1⟩
    · rw [h1]; exact hjust
    · rw [h1]; exact format_version_no_slash _ _ hjust
  simp only [List.mem_append, not_or]
  exact ⟨hf, path_extension_no_slash _⟩

theorem get_perform_no_slash (pid : Nat) (s : State) (h0 : s.m_written = 0)
    (hn : '/' ∉ s.m_filename) (hreq : (get_perform pid s).2 ≠ none) :
    '/' ∉ (get_perform pid s).1.m_filename ∧
    (get_perform pid s).1.m_tmp_path =
      path_append s.m_dest_folder ((get_perform pid s).1.m_filename ++ download_suffix pid) ∧
    (get_perform pid s).1.dest_path =
      path_append s.m_dest_folder (get_perform pid s).1.m_filename := by
  obtain ⟨f, hf⟩ := get_perform_request_search pid s h0 hreq
  have hfree := found_no_slash _ _ _ _ _ _ hn hf
  rw [get_perform_of_found pid s f h0 hf]
  obtain ⟨k1, k2, _, _, k5, _⟩ := open_and_request_keeps { s with
    m_stopped := false
    m_filename := f ++ path_extension (path_append s.m_dest_folder s.m_filename)
    m_tmp_path := path_append s.m_dest_folder
      (f ++ path_extension (path_append s.m_dest_folder s.m_filename) ++ download_suffix pid)
    queue := s.queue ++ [EVT_DWNLDR_FILE_NAME_CHANGE s.m_id
      (f ++ path_extension (path_append s.m_dest_folder s.m_filename))] }
  rw [k1, k2, k5]
  exact ⟨hfree, rfl, rfl⟩

/-- Claim C8, counterexample.  A caller-supplied name `../model.stl` is resolved to a name that
contains the separator, with the temporary file at `dl/../model.stl.1234.download`; and a
`content-disposition` file name `../../evil.stl` is resolved to a name that contains the
separator, with the destination path `dl/../../evil.stl`. -/
theorem resolved_name_keeps_separators :
    '/' ∈ (get_perform 1234 (priv_ctor 7 "https://files.example/x".toList
      "../model.stl".toList "dl".toList true empty_fs)).1.m_filename ∧
    (get_perform 1234 (priv_ctor 7 "https://files.example/x".toList
      "../model.stl".toList "dl".toList true empty_fs)).1.m_tmp_path =
        "dl/../model.stl.1234.download".toList ∧
    '/' ∈ (on_headers (get_perform 1234 (example_job empty_fs)).1 traversal_headers).m_filename ∧
    (on_headers (get_perform 1234 (example_job empty_fs)).1 traversal_headers).dest_path =
      "dl/../../evil.stl".toList := by
  decide

/-- Claim C8, amended.  For a caller-supplied file name without the separator `/`, the name a
fresh start of the new job resolves contains no separator, the temporary path is
`<dir>/<resolved-name>.<pid>.download`, and temporary path and destination path are direct
children of the destination directory.  For a `content-disposition` file name without separator,
the name the on-headers hook resolves contains no separator and the destination path is a direct
child of the destination directory; the hook leaves the temporary path as it is. -/
theorem separator_free_names_stay_in_directory (pid : Nat) (ID : Int)
    (url filename dir : Str) (load_after : Bool) (fs : FS) (s : State) (headers R : Str) :
    ('/' ∉ filename →
      (get_perform pid (priv_ctor ID url filename dir load_after fs)).2 ≠ none →
      '/' ∉ (get_perform pid (priv_ctor ID url filename dir load_after fs)).1.m_filename ∧
      (get_perform pid (priv_ctor ID url filename dir load_after fs)).1.m_tmp_path =
        path_append dir
          ((get_perform pid (priv_ctor ID url filename dir load_after fs)).1.m_filename ++
            download_suffix pid) ∧
      is_direct_child dir
        (get_perform pid (priv_ctor ID url filename dir load_after fs)).1.m_tmp_path ∧
      is_direct_child dir
        (get_perform pid (priv_ctor ID url filename dir load_after fs)).1.dest_path) ∧
    ('/' ∉ extract_filename_from_header headers →
      (on_headers s headers).queue = s.queue ++ [EVT_DWNLDR_FILE_NAME_CHANGE s.m_id R] →
      '/' ∉ R ∧
      (on_headers s headers).m_filename = R ∧
      (on_headers s headers).m_tmp_path = s.m_tmp_path ∧
      is_direct_child s.m_dest_folder (on_headers s headers).dest_path) := by
  constructor
  · intro hn hreq
    have hn2 : '/' ∉ (priv_ctor ID url filename dir load_after fs).m_filename := by
      intro hmem
      exact hn (List.mem_of_mem_filter hmem)
    obtain ⟨h1, h2, h3⟩ := get_perform_no_slash pid _ rfl hn2 hreq
    refine ⟨h1, h2, ⟨_, ?_, h2⟩, ⟨_, h1, h3⟩⟩
    simp only [List.mem_append, not_or]
    exact ⟨h1, download_suffix_no_slash pid⟩
  · intro hn h
    obtain ⟨h1, h2, f, hf, hR⟩ := on_headers_name_change s headers R h
    have hfree := found_no_slash _ _ _ _ _ _ hn hf
    rw [← hR] at hfree
    refine ⟨hfree, h1, ?_, ⟨R, hfree, h2⟩⟩
    unfold on_headers
    simp only
    split_ifs
    · rfl
    · split <;> rfl

theorem separator_free_names_stay_in_directory_witness :
    ('/' ∉ (get_perform 1234 (example_job example_fs)).1.m_filename ∧
      (get_perform 1234 (example_job example_fs)).1.m_tmp_path =
        path_append "dl".toList
          ((get_perform 1234 (example_job example_fs)).1.m_filename ++ download_suffix 1234) ∧
      is_direct_child "dl".toList (get_perform 1234 (example_job example_fs)).1.m_tmp_path ∧
      is_direct_child "dl".toList (get_perform 1234 (example_job example_fs)).1.dest_path) ∧
    ('/' ∉ "model.stl".toList ∧
      (on_headers (get_perform 1234 (example_job empty_fs)).1 example_headers).m_filename =
        "model.stl".toList ∧
      (on_headers (get_perform 1234 (example_job empty_fs)).1 example_headers).m_tmp_path =
        (get_perform 1234 (example_job empty_fs)).1.m_tmp_path ∧
      is_direct_child "dl".toList
        (on_headers (get_perform 1234 (example_job empty_fs)).1 example_headers).dest_path) :=
  ⟨(separator_free_names_stay_in_directory 1234 7 "https://files.example/model.stl".toList
      "model.stl".toList "dl".toList true example_fs (example_job empty_fs) [] []).1
      (by decide) (by decide),
   (separator_free_names_stay_in_directory 1234 7 [] [] [] true empty_fs
      (get_perform 1234 (example_job empty_fs)).1 example_headers "model.stl".toList).2
      (by decide) (by decide)⟩


/-! ## The branches of the progress hook -/

theorem on_progress_stopped (s : State) (p : Progress) (c : Bool) (h : s.m_stopped = true) :
    on_progress s p c = (s, true) := by
  simp [on_progress, h]

theorem on_progress_cancel (s : State) (p : Progress) (c : Bool) (h : s.m_stopped = false)
    (hc : s.m_cancel = true) :
    on_progress s p c =
      ({ s with
          m_stopped := true,
          fs := s.fs.remove s.m_tmp_path,
          m_written := 0,
          queue := s.queue ++ [EVT_DWNLDR_FILE_CANCELED s.m_id] }, true) := by
  simp [on_progress, h, hc]

theorem on_progress_pause (s : State) (p : Progress) (c : Bool) (h : s.m_stopped = false)
    (hc : s.m_cancel = false) (hp : s.m_pause = true) :
    on_progress s p c =
      ({ s with
          m_stopped := true,
          fs := if s.m_written = 0 then s.fs.remove s.m_tmp_path else s.fs,
          queue := s.queue ++ [EVT_DWNLDR_FILE_PAUSED s.m_id] }, true) := by
  simp [on_progress, h, hc, hp]

/-- In the transfer branch of the progress hook (no stop, no request) no stop notification is
queued and the job is not stopped. -/
theorem on_progress_transfer (s : State) (p : Progress) (c : Bool) (h : s.m_stopped = false)
    (hc : s.m_cancel = false) (hp : s.m_pause = false) :
    (on_progress s p c).1.m_stopped = false ∧
    ∃ new, (on_progress s p c).1.queue = s.queue ++ new ∧ new.countP Event.is_stop = 0 := by
  unfold on_progress
  simp only [h, hc, hp, Bool.false_eq_true, if_false]
  split_ifs <;> (try split) <;>
    first
    | exact ⟨rfl, [_], rfl, by simp [Event.is_stop]⟩
    | exact ⟨rfl, [], by simp, by simp⟩

theorem poll_stop_count (s : State) (x : Poll) :
    ∃ new, (poll s x).queue = s.queue ++ new ∧
      (s.m_stopped = true → new = [] ∧ (poll s x).m_stopped = true) ∧
      (s.m_stopped = false →
        new.countP Event.is_stop ≤ 1 ∧
        (new.countP Event.is_stop = 1 → (poll s x).m_stopped = true)) := by
  unfold poll
  generalize hs' : set_requests s x.cancel_requested x.pause_requested = s'
  have e1 : s'.m_stopped = s.m_stopped := by rw [← hs']; rfl
  have e2 : s'.queue = s.queue := by rw [← hs']; rfl
  have e3 : s'.m_cancel = x.cancel_requested := by rw [← hs']; rfl
  have e4 : s'.m_pause = x.pause_requested := by rw [← hs']; rfl
  rw [← e1, ← e2]
  rcases Bool.eq_false_or_eq_true s'.m_stopped with hst | hst
  · rw [on_progress_stopped s' _ _ hst]
    exact ⟨[], by simp, fun _ => ⟨rfl, hst⟩, fun h => by simp [hst] at h⟩
  · rcases Bool.eq_false_or_eq_true s'.m_cancel with hc | hc
    · rw [on_progress_cancel s' _ _ hst hc]
      exact ⟨[_], rfl, fun h => by simp [hst] at h,
        fun _ => ⟨by simp [Event.is_stop], fun _ => rfl⟩⟩
    · rcases Bool.eq_false_or_eq_true s'.m_pause with hp | hp
      · rw [on_progress_pause s' _ _ hst hc hp]
        exact ⟨[_], rfl, fun h => by simp [hst] at h,
          fun _ => ⟨by simp [Event.is_stop], fun _ => rfl⟩⟩
      · obtain ⟨h1, new, h2, h3⟩ := on_progress_transfer s' x.progress false hst hc hp
        exact ⟨new, h2, fun h => by simp [hst] at h,
          fun _ => ⟨by omega, fun h => by omega⟩⟩

theorem polls_stop_count (xs : List Poll) :
    ∀ s : State, ∃ new, (polls s xs).queue = s.queue ++ new ∧
      new.countP Event.is_stop ≤ (if s.m_stopped = true then 0 else 1) ∧
      (s.m_stopped = true → (polls s xs).m_stopped = true) ∧
      (new.countP Event.is_stop = 1 → (polls s xs).m_stopped = true) := by
  induction xs with
  | nil => intro s; exact ⟨[], by simp [polls], by simp, fun h => h, fun h => by simp at h⟩
  | cons x xs ih =>
    intro s
    obtain ⟨new1, hq1, hs1, hs2⟩ := poll_stop_count s x
    obtain ⟨new2, hq2, hc2, hst2, hone2⟩ := ih (poll s x)
    have hstep : polls s (x :: xs) = polls (poll s x) xs := rfl
    rw [hstep]
    refine ⟨new1 ++ new2, ?_, ?_, ?_, ?_⟩
    · rw [hq2, hq1, List.append_assoc]
    · rw [List.countP_append]
      rcases Bool.eq_false_or_eq_true s.m_stopped with hst | hst
      · obtain ⟨hn, hst3⟩ := hs1 hst
        simp only [hst3, if_true] at hc2
        simp only [hst, if_true, hn, List.countP_nil]
        omega
      · obtain ⟨hle, himp⟩ := hs2 hst
        simp only [hst, Bool.false_eq_true, if_false]
        by_cases h1 : new1.countP Event.is_stop = 1
        · have := himp h1
          simp only [this, if_true] at hc2
          omega
        · have : (if (poll s x).m_stopped = true then 0 else 1) ≤ 1 := by split_ifs <;> omega
          omega
    · intro hst
      exact hst2 (hs1 hst).2
    · rw [List.countP_append]
      intro hone
      rcases Bool.eq_false_or_eq_true s.m_stopped with hst | hst
      · exact hst2 (hs1 hst).2
      · obtain ⟨hle, himp⟩ := hs2 hst
        by_cases h1 : new1.countP Event.is_stop = 1
        · exact hst2 (himp h1)
        · exact hone2 (by omega)

/-- Claim C9.  Over any sequence of polls, with any values of the two request flags at each
poll, the progress hook queues at most one Paused or Cancelled notification, and the job is
stopped once it has.  On a stopped job the hook changes nothing and queues nothing: it returns
the state as it was, with the transport's cancel signal set.  When the hook finds both requests
on a job that is not stopped, the one notification it queues is Cancelled. -/
theorem no_duplicate_stop_notification (s : State) (xs : List Poll) (p : Progress) (c : Bool) :
    (∃ new, (polls s xs).queue = s.queue ++ new ∧ new.countP Event.is_stop ≤ 1 ∧
      (new.countP Event.is_stop = 1 → (polls s xs).m_stopped = true)) ∧
    (s.m_stopped = true → on_progress s p c = (s, true)) ∧
    (s.m_stopped = false → s.m_cancel = true → s.m_pause = true →
      (on_progress s p c).1.queue = s.queue ++ [EVT_DWNLDR_FILE_CANCELED s.m_id]) := by
  refine ⟨?_, on_progress_stopped s p c, ?_⟩
  · obtain ⟨new, h1, h2, _, h4⟩ := polls_stop_count xs s
    refine ⟨new, h1, le_trans h2 ?_, h4⟩
    split_ifs <;> omega
  · intro h hc _
    rw [on_progress_cancel s p c h hc]

theorem no_duplicate_stop_notification_witness :
    on_progress (poll example_session ⟨false, true, example_progress⟩) example_progress false =
      (poll example_session ⟨false, true, example_progress⟩, true) ∧
    (on_progress (set_requests example_session true true) example_progress false).1.queue =
      (set_requests example_session true true).queue ++ [EVT_DWNLDR_FILE_CANCELED 7] :=
  ⟨(no_duplicate_stop_notification (poll example_session ⟨false, true, example_progress⟩) []
      example_progress false).2.1 (by decide),
   (no_duplicate_stop_notification (set_requests example_session true true) []
      example_progress false).2.2 (by decide) (by decide) (by decide)⟩

/-! ## Flushing and `m_written` -/

theorem substr_eq_some (b : Str) (pos count : Nat) (h : pos ≤ b.length) :
    substr b pos count = some ((b.drop pos).take count) := by
  simp [substr, Nat.not_lt.mpr h]

theorem substr_eq_none (b : Str) (pos count : Nat) (h : ¬ pos ≤ b.length) :
    substr b pos count = none := by
  simp [substr, Nat.lt_of_not_le h]

/-- The transfer branch of the progress hook when it flushes. -/
theorem on_progress_flush (s : State) (p : Progress) (c : Bool) (h : s.m_stopped = false)
    (hc : s.m_cancel = false) (hp : s.m_pause = false) (hd : p.dlnow ≠ 0)
    (hcond : size_sub p.dlnow s.written_this_session > DOWNLOAD_MAX_CHUNK_SIZE ∨
      p.dlnow = p.dltotal)
    (hbuf : s.written_this_session ≤ p.buffer.length) :
    on_progress s p c =
      ({ s with
          m_absolute_size :=
            if s.m_absolute_size < p.dltotal then p.dltotal else s.m_absolute_size,
          fs := s.fs.fwrite s.m_tmp_path ((p.buffer.drop s.written_this_session).take p.dlnow),
          written_this_session := p.dlnow,
          m_written := size_add s.written_previously p.dlnow,
          queue := s.queue ++ [EVT_DWNLDR_FILE_PROGRESS s.m_id (to_string_int
            (percent_total
              (if s.m_absolute_size < p.dltotal then p.dltotal else s.m_absolute_size)
              s.written_previously p.dlnow))] }, c) := by
  unfold on_progress
  simp only [h, hc, hp, Bool.false_eq_true, if_false, hd, ne_eq, not_false_eq_true, if_true,
    hcond, substr_eq_some _ _ _ hbuf]

/-- The transfer branch of the progress hook when it does not flush: nothing but the size hint
and the queue changes. -/
theorem on_progress_no_flush (s : State) (p : Progress) (c : Bool) (h : s.m_stopped = false)
    (hc : s.m_cancel = false) (hp : s.m_pause = false)
    (hno : ¬ (p.dlnow ≠ 0 ∧
      (size_sub p.dlnow s.written_this_session > DOWNLOAD_MAX_CHUNK_SIZE ∨
        p.dlnow = p.dltotal) ∧
      s.written_this_session ≤ p.buffer.length)) :
    ∃ q, (on_progress s p c).1 =
      { s with
          m_absolute_size :=
            if s.m_absolute_size < p.dltotal then p.dltotal else s.m_absolute_size,
          queue := q } := by
  unfold on_progress
  simp only [h, hc, hp, Bool.false_eq_true, if_false]
  by_cases hd : p.dlnow ≠ 0
  · simp only [hd, ne_eq, not_false_eq_true, if_true]
    by_cases hcond : size_sub p.dlnow s.written_this_session > DOWNLOAD_MAX_CHUNK_SIZE ∨
        p.dlnow = p.dltotal
    · have hbuf : ¬ s.written_this_session ≤ p.buffer.length := fun hb => hno ⟨hd, hcond, hb⟩
      simp only [hcond, if_true, substr_eq_none _ _ _ hbuf]
      exact ⟨_, rfl⟩
    · simp only [hcond, if_false]
      exact ⟨_, rfl⟩
  · simp only [hd, if_false]
    exact ⟨_, rfl⟩

/-- What one poll does to `m_written` and to the session counters. -/
theorem poll_written (s : State) (x : Poll) :
    (poll s x).written_previously = s.written_previously ∧
    (s.m_stopped = true → poll s x = set_requests s x.cancel_requested x.pause_requested) ∧
    (takes_cancel_branch s x → (poll s x).m_written = 0 ∧ (poll s x).m_stopped = true ∧
      (poll s x).written_this_session = s.written_this_session) ∧
    (flushes s x →
      (poll s x).m_written = size_add s.written_previously x.progress.dlnow ∧
      (poll s x).written_this_session = x.progress.dlnow ∧
      (poll s x).m_stopped = false) ∧
    (¬ takes_cancel_branch s x → ¬ flushes s x →
      (poll s x).m_written = s.m_written ∧
      (poll s x).written_this_session = s.written_this_session ∧
      ((poll s x).m_stopped = false → s.m_stopped = false)) := by
  unfold poll takes_cancel_branch flushes
  generalize hs' : set_requests s x.cancel_requested x.pause_requested = s'
  have e1 : s'.m_stopped = s.m_stopped := by rw [← hs']; rfl
  have e3 : s'.m_cancel = x.cancel_requested := by rw [← hs']; rfl
  have e4 : s'.m_pause = x.pause_requested := by rw [← hs']; rfl
  have e5 : s'.written_previously = s.written_previously := by rw [← hs']; rfl
  have e6 : s'.written_this_session = s.written_this_session := by rw [← hs']; rfl
  have e7 : s'.m_written = s.m_written := by rw [← hs']; rfl
  rw [← e1, ← e3, ← e4, ← e5, ← e6, ← e7]
  rcases Bool.eq_false_or_eq_true s'.m_stopped with hst | hst
  · rw [on_progress_stopped s' _ _ hst]
    simp [hst]
  · rcases Bool.eq_false_or_eq_true s'.m_cancel with hc | hc
    · rw [on_progress_cancel s' _ _ hst hc]
      simp [hst, hc]
    · rcases Bool.eq_false_or_eq_true s'.m_pause with hp | hp
      · rw [on_progress_pause s' _ _ hst hc hp]
        simp [hst, hc, hp]
      · by_cases hfl : x.progress.dlnow ≠ 0 ∧
            (size_sub x.progress.dlnow s'.written_this_session > DOWNLOAD_MAX_CHUNK_SIZE ∨
              x.progress.dlnow = x.progress.dltotal) ∧
            s'.written_this_session ≤ x.progress.buffer.length
        · rw [on_progress_flush s' _ _ hst hc hp hfl.1 hfl.2.1 hfl.2.2]
          exact ⟨rfl, fun h => absurd h (by simp [hst]), fun h => absurd h.2 (by simp [hc]),
            fun _ => ⟨rfl, rfl, hst⟩, fun _ hnf => absurd ⟨hst, hc, hp, hfl⟩ hnf⟩
        · obtain ⟨q, hq⟩ := on_progress_no_flush s' x.progress false hst hc hp hfl
          rw [hq]
          exact ⟨rfl, fun h => absurd h (by simp [hst]), fun h => absurd h.2 (by simp [hc]),
            fun h => absurd h.2.2.2 hfl, fun _ _ => ⟨rfl, rfl, fun _ => hst⟩⟩

theorem size_add_of_lt (a b : Nat) (h : a + b < SIZE_MOD) : size_add a b = a + b := by
  unfold size_add
  exact Nat.mod_eq_of_lt h

theorem poll_run_inv (wp D : Nat) (s : State) (x : Poll) (hinv : run_inv wp D s)
    (hx : x.progress.dlnow ≤ D) (hfit : wp + D < SIZE_MOD) :
    run_inv wp D (poll s x) := by
  obtain ⟨h1, h2, h3⟩ := hinv
  obtain ⟨p1, p2, p3, p4, p5⟩ := poll_written s x
  by_cases hcb : takes_cancel_branch s x
  · obtain ⟨_, q2, q3⟩ := p3 hcb
    exact ⟨p1.trans h1, by omega, fun h => by rw [q2] at h; exact absurd h (by simp)⟩
  · by_cases hfl : flushes s x
    · obtain ⟨q1, q2, _⟩ := p4 hfl
      refine ⟨p1.trans h1, by omega, fun _ => ?_⟩
      rw [q1, q2, h1, size_add_of_lt _ _ (by omega)]
    · obtain ⟨q1, q2, q3⟩ := p5 hcb hfl
      refine ⟨p1.trans h1, by omega, fun h => ?_⟩
      rw [q1, q2]
      exact h3 (q3 h)

theorem polls_run_inv (wp D : Nat) (xs : List Poll) :
    ∀ s : State, run_inv wp D s → (∀ y ∈ xs, y.progress.dlnow ≤ D) → wp + D < SIZE_MOD →
      run_inv wp D (polls s xs) := by
  induction xs with
  | nil => intro s h _ _; exact h
  | cons x xs ih =>
    intro s h hall hfit
    have hstep : polls s (x :: xs) = polls (poll s x) xs := rfl
    rw [hstep]
    exact ih _ (poll_run_inv wp D s x h (hall x (List.mem_cons_self _ _)) hfit)
      (fun y hy => hall y (List.mem_cons_of_mem _ hy)) hfit

/-- The state in which a worker starts to serve the transport. -/
theorem get_perform_session (pid : Nat) (j : State) (h : (get_perform pid j).2 ≠ none) :
    (get_perform pid j).1.m_stopped = false ∧
    (get_perform pid j).1.written_previously = j.m_written ∧
    (get_perform pid j).1.written_this_session = 0 ∧
    (get_perform pid j).1.m_written = j.m_written := by
  by_cases h0 : j.m_written = 0
  · obtain ⟨f, hf⟩ := get_perform_request_search pid j h0 h
    rw [get_perform_of_found pid j f h0 hf] at h ⊢
    obtain ⟨_, _, k3, k4, _, k6⟩ := open_and_request_keeps { j with
      m_stopped := false
      m_filename := f ++ path_extension (path_append j.m_dest_folder j.m_filename)
      m_tmp_path := path_append j.m_dest_folder
        (f ++ path_extension (path_append j.m_dest_folder j.m_filename) ++ download_suffix pid)
      queue := j.queue ++ [EVT_DWNLDR_FILE_NAME_CHANGE j.m_id
        (f ++ path_extension (path_append j.m_dest_folder j.m_filename))] }
    obtain ⟨_, _, q3, q4⟩ := k6 h
    exact ⟨k4, q3, q4, k3⟩
  · have hgp : get_perform pid j = open_and_request { j with m_stopped := false } := by
      simp only [get_perform, h0, if_false]
    rw [hgp] at h ⊢
    obtain ⟨_, _, k3, k4, _, k6⟩ := open_and_request_keeps { j with m_stopped := false }
    obtain ⟨_, _, q3, q4⟩ := k6 h
    exact ⟨k4, q3, q4, k3⟩

/-- Claim C10.  In a worker run that starts from the offset `j.m_written`, with the reported
counts `dlnow` non-decreasing and the total within the range of `size_t`: a poll that does not
take the cancel branch leaves `m_written` at least what it was; a poll that flushes sets it to
`written_previously + dlnow`; a poll that neither cancels nor flushes (pause, stopped job, failed
`substr`, threshold not reached) leaves it unchanged; and a non-zero `m_written` becomes zero
only in the cancel branch. -/
theorem bytes_written_monotone (pid : Nat) (j : State) (xs : List Poll) (x : Poll)
    (hstart : (get_perform pid j).2 ≠ none)
    (hmono : List.Pairwise (fun a b => a ≤ b)
      ((xs ++ [x]).map (fun y => y.progress.dlnow)))
    (hfit : j.m_written + x.progress.dlnow < SIZE_MOD) :
    (polls (get_perform pid j).1 xs).written_previously = j.m_written ∧
    (¬ takes_cancel_branch (polls (get_perform pid j).1 xs) x →
      (polls (get_perform pid j).1 xs).m_written ≤
        (poll (polls (get_perform pid j).1 xs) x).m_written) ∧
    (flushes (polls (get_perform pid j).1 xs) x →
      (poll (polls (get_perform pid j).1 xs) x).m_written =
        j.m_written + x.progress.dlnow) ∧
    (¬ takes_cancel_branch (polls (get_perform pid j).1 xs) x →
      ¬ flushes (polls (get_perform pid j).1 xs) x →
      (poll (polls (get_perform pid j).1 xs) x).m_written =
        (polls (get_perform pid j).1 xs).m_written) ∧
    ((polls (get_perform pid j).1 xs).m_written ≠ 0 →
      (poll (polls (get_perform pid j).1 xs) x).m_written = 0 →
      takes_cancel_branch (polls (get_perform pid j).1 xs) x) := by
  obtain ⟨g1, g2, g3, g4⟩ := get_perform_session pid j hstart
  have hall : ∀ y ∈ xs, y.progress.dlnow ≤ x.progress.dlnow := by
    rw [List.map_append, List.pairwise_append] at hmono
    intro y hy
    exact hmono.2.2 _ (List.mem_map_of_mem _ hy) _ (by simp)
  have hinv0 : run_inv j.m_written x.progress.dlnow (get_perform pid j).1 :=
    ⟨g2, by omega, fun _ => by rw [g4, g3]; rfl⟩
  obtain ⟨i1, i2, i3⟩ := polls_run_inv _ _ xs _ hinv0 hall hfit
  generalize polls (get_perform pid j).1 xs = s at i1 i2 i3 ⊢
  obtain ⟨p1, p2, p3, p4, p5⟩ := poll_written s x
  have hflush : flushes s x → (poll s x).m_written = j.m_written + x.progress.dlnow := by
    intro hfl
    rw [(p4 hfl).1, i1, size_add_of_lt _ _ hfit]
  have hge : ¬ takes_cancel_branch s x → s.m_written ≤ (poll s x).m_written := by
    intro hcb
    by_cases hfl : flushes s x
    · rw [hflush hfl, i3 hfl.1]
      omega
    · rw [(p5 hcb hfl).1]
  refine ⟨i1, hge, hflush, fun hcb hfl => (p5 hcb hfl).1, fun hne hz => ?_⟩
  by_contra hcb
  have := hge hcb
  omega

theorem bytes_written_monotone_witness :
    (poll (polls (get_perform 1234 (example_job empty_fs)).1
      [⟨false, false, example_progress_half⟩]) ⟨false, false, example_progress⟩).m_written =
        0 + 4 :=
  (bytes_written_monotone 1234 (example_job empty_fs) [⟨false, false, example_progress_half⟩]
    ⟨false, false, example_progress⟩ (by decide) (by decide) (by decide)).2.2.1
    (by unfold flushes; decide)


/-! ## The progress percentage -/

theorem to_int_of_lt (v : Nat) (h : v < 2 ^ 31) : to_int v = (v : Int) := by
  unfold to_int
  have h1 : v % 2 ^ 32 = v := Nat.mod_eq_of_lt (by omega)
  rw [h1, if_pos h]

theorem to_string_int_natCast (v : Nat) : to_string_int (v : Int) = to_string v := by
  unfold to_string_int
  have : ¬ ((v : Int) < 0) := by omega
  rw [if_neg this, Int.toNat_ofNat]

theorem percent_total_eq (A wp dlnow : Nat) (hfit : (wp + dlnow) * 100 < SIZE_MOD)
    (hint : (wp + dlnow) * 100 / A < 2 ^ 31) :
    to_string_int (percent_total A wp dlnow) = to_string ((wp + dlnow) * 100 / A) := by
  unfold percent_total
  have h1 : size_add wp dlnow = wp + dlnow := size_add_of_lt _ _ (by omega)
  have h2 : size_mul (wp + dlnow) 100 = (wp + dlnow) * 100 := by
    unfold size_mul; exact Nat.mod_eq_of_lt hfit
  by_cases hA : A = 0
  · subst hA
    simp only [if_true, Nat.div_zero]
    rw [to_int_of_lt 0 (by omega), to_string_int_natCast]
  · rw [if_neg hA, h1, h2, to_int_of_lt _ hint, to_string_int_natCast]

/-- Claim C7, counterexample.  The example download is paused after its four bytes were flushed
and then resumed; the server answers the resumed request with the whole file again.  The
progress report has `0 < dlnow ≤ dltotal`, and the Progress notification carries 200. -/
theorem progress_percentage_exceeds_100 :
    0 < example_progress.dlnow ∧ example_progress.dlnow ≤ example_progress.dltotal ∧
    example_resumed.written_previously = 4 ∧ example_resumed.m_absolute_size = 4 ∧
    (on_progress example_resumed example_progress false).1.queue =
      example_resumed.queue ++ [EVT_DWNLDR_FILE_PROGRESS 7 "200".toList] := by
  decide

/-- Claim C7, amended.  A progress report with `0 < dlnow ≤ dltotal`, served on a job that is
neither stopped nor asked to stop, with the buffer no shorter than what was flushed and the
values within the range of `size_t` and `int`: the job's size hint becomes the larger of the old
hint and `dltotal`, and the Progress notification carries
`floor((written_previously + dlnow) * 100 / total_size)` for this hint.  The value is at most
100 whenever `written_previously + dlnow ≤ total_size`, and so in every fresh session
(`written_previously = 0`). -/
theorem progress_percentage (s : State) (p : Progress) (c : Bool)
    (hst : s.m_stopped = false) (hc : s.m_cancel = false) (hp : s.m_pause = false)
    (hpos : 0 < p.dlnow) (hle : p.dlnow ≤ p.dltotal)
    (hbuf : s.written_this_session ≤ p.buffer.length)
    (hfit : (s.written_previously + p.dlnow) * 100 < SIZE_MOD)
    (hint : (s.written_previously + p.dlnow) * 100 / max s.m_absolute_size p.dltotal < 2 ^ 31) :
    (on_progress s p c).1.m_absolute_size = max s.m_absolute_size p.dltotal ∧
    (on_progress s p c).1.queue = s.queue ++ [EVT_DWNLDR_FILE_PROGRESS s.m_id
      (to_string ((s.written_previously + p.dlnow) * 100 / max s.m_absolute_size p.dltotal))] ∧
    (s.written_previously + p.dlnow ≤ max s.m_absolute_size p.dltotal →
      (s.written_previously + p.dlnow) * 100 / max s.m_absolute_size p.dltotal ≤ 100) ∧
    (s.written_previously = 0 →
      (s.written_previously + p.dlnow) * 100 / max s.m_absolute_size p.dltotal ≤ 100) := by
  have hmax : (if s.m_absolute_size < p.dltotal then p.dltotal else s.m_absolute_size) =
      max s.m_absolute_size p.dltotal := by
    split_ifs with h
    · exact (max_eq_right (le_of_lt h)).symm
    · exact (max_eq_left (not_lt.mp h)).symm
  have hd : p.dlnow ≠ 0 := by omega
  have hrange : s.written_previously + p.dlnow ≤ max s.m_absolute_size p.dltotal →
      (s.written_previously + p.dlnow) * 100 / max s.m_absolute_size p.dltotal ≤ 100 := by
    intro h
    apply Nat.div_le_of_le_mul
    nlinarith
  refine ⟨?_, ?_, hrange, fun h0 => hrange ?_⟩
  · by_cases hcond : size_sub p.dlnow s.written_this_session > DOWNLOAD_MAX_CHUNK_SIZE ∨
        p.dlnow = p.dltotal
    · rw [on_progress_flush s p c hst hc hp hd hcond hbuf]
      exact hmax
    · unfold on_progress
      simp only [hst, hc, hp, Bool.false_eq_true, if_false, hd, ne_eq, not_false_eq_true,
        if_true, hcond]
      exact hmax
  · by_cases hcond : size_sub p.dlnow s.written_this_session > DOWNLOAD_MAX_CHUNK_SIZE ∨
        p.dlnow = p.dltotal
    · rw [on_progress_flush s p c hst hc hp hd hcond hbuf]
      simp only [hmax, percent_total_eq _ _ _ hfit hint]
    · unfold on_progress
      simp only [hst, hc, hp, Bool.false_eq_true, if_false, hd, ne_eq, not_false_eq_true,
        if_true, hcond]
      simp only [hmax, percent_total_eq _ _ _ hfit hint]
  · rw [h0]
    have := le_max_right s.m_absolute_size p.dltotal
    omega

theorem progress_percentage_witness :
    (on_progress example_session example_progress false).1.m_absolute_size = max 0 4 ∧
    (on_progress example_session example_progress false).1.queue =
      example_session.queue ++ [EVT_DWNLDR_FILE_PROGRESS 7 (to_string ((0 + 4) * 100 / max 0 4))] ∧
    (0 + 4) * 100 / max 0 4 ≤ 100 :=
  have h := progress_percentage example_session example_progress false (by decide) (by decide)
    (by decide) (by decide) (by decide) (by decide) (by decide) (by decide)
  ⟨h.1, h.2.1, h.2.2.2 (by decide)⟩


/-! ## Streamed content -/

theorem fwrite_at (fs : FS) (path old data : Str) (h : fs.files path = some old) :
    (fs.fwrite path data).files path = some (old ++ data) := by
  unfold FS.fwrite
  split
  · rename_i old2 h2
    rw [h] at h2
    cases h2
    simp [put_files]
  · rename_i h2
    rw [h] at h2
    cases h2

theorem fwrite_frame (fs : FS) (path data : Str) :
    (fs.fwrite path data).dirs = fs.dirs ∧ (fs.fwrite path data).denied = fs.denied := by
  unfold FS.fwrite
  split <;> exact ⟨rfl, rfl⟩

/-- Whether a file can be created depends on the directories and on the paths that cannot be
accessed only. -/
theorem can_create_congr (fs1 fs2 : FS) (p : Str) (h1 : fs1.dirs = fs2.dirs)
    (h2 : fs1.denied = fs2.denied) : fs1.can_create p = fs2.can_create p := by
  unfold FS.can_create
  rw [h1, h2]

/-- Where no file can be created there is no file. -/
theorem files_none_of_not_can_create (fs : FS) (p : Str) (h : fs.can_create p = false) :
    fs.files p = none := by
  cases hf : fs.files p with
  | none => rfl
  | some c =>
    exfalso
    have h1 : (fs.files p).isSome = true := by rw [hf]; rfl
    have h2 := fs.file_not_denied p h1
    have h3 := fs.file_not_dir p h1
    have h4 := fs.parent_present p (Or.inl h1)
    simp [FS.can_create, h2, h3, h4] at h

theorem rename_of_can_create (fs : FS) (src dst data : Str) (h : fs.files src = some data)
    (hc : fs.can_create dst = true) :
    ∃ fs2, fs.rename src dst = some fs2 ∧
      (∀ q, fs2.files q = if q = dst then some data else if q = src then none else fs.files q) := by
  unfold FS.rename
  simp only [h]
  rw [dif_pos hc]
  exact ⟨_, rfl, fun q => rfl⟩

theorem rename_of_not_can_create (fs : FS) (src dst : Str) (hc : fs.can_create dst = false) :
    fs.rename src dst = none := by
  unfold FS.rename
  split
  · rfl
  · rw [dif_neg (by simp [hc])]

theorem take_append_range (B : Str) (w d : Nat) (h : w ≤ d) :
    B.take w ++ byte_range B w d = B.take d := by
  unfold byte_range
  have : B.take w = (B.take d).take w := by
    rw [List.take_take, Nat.min_eq_left h]
  rw [this, List.take_append_drop]

theorem substr_report (B : Str) (w d : Nat) :
    ((B.take d).drop w).take d = byte_range B w d := by
  unfold byte_range
  apply List.take_of_length_le
  simp only [List.length_drop, List.length_take]
  omega

/-- One report of the transfer, served by the progress hook. -/
theorem hook_progress_content (s0 : State) (P B : Str) (s : State) (r : Nat × Nat)
    (hinv : content_inv s0 P B s) (hw : s.written_this_session ≤ r.2)
    (hr : r.2 ≤ B.length) :
    content_inv s0 P B (hook s (HookCall.progress (report_of B r))) ∧
    ((hook s (HookCall.progress (report_of B r))).written_this_session = s.written_this_session ∨
      (hook s (HookCall.progress (report_of B r))).written_this_session = r.2) ∧
    (flushes s ⟨false, false, report_of B r⟩ →
      (hook s (HookCall.progress (report_of B r))).written_this_session = r.2 ∧
      (hook s (HookCall.progress (report_of B r))).fs.files s0.m_tmp_path =
        some (P ++ B.take s.written_this_session ++
          byte_range (report_of B r).buffer s.written_this_session r.2)) := by
  obtain ⟨hst, hc, hp, htmp, hdest, hid, hla, hfs, hdirs, hden⟩ := hinv
  have hbuflen : (report_of B r).buffer.length = r.2 := by
    simp [report_of, hr]
  have hbuf : s.written_this_session ≤ (report_of B r).buffer.length := by omega
  have hrange : byte_range (report_of B r).buffer s.written_this_session r.2 =
      byte_range B s.written_this_session r.2 := by
    simp [report_of, byte_range, List.take_take]
  have hhook : hook s (HookCall.progress (report_of B r)) =
      (on_progress s (report_of B r) false).1 := rfl
  rw [hhook]
  by_cases hfl : (report_of B r).dlnow ≠ 0 ∧
      (size_sub (report_of B r).dlnow s.written_this_session > DOWNLOAD_MAX_CHUNK_SIZE ∨
        (report_of B r).dlnow = (report_of B r).dltotal) ∧
      s.written_this_session ≤ (report_of B r).buffer.length
  · have hstep := on_progress_flush s (report_of B r) false hst hc hp hfl.1 hfl.2.1 hfl.2.2
    have hpart : ((report_of B r).buffer.drop s.written_this_session).take (report_of B r).dlnow =
        byte_range B s.written_this_session r.2 := substr_report B _ _
    have hfs' : (on_progress s (report_of B r) false).1.fs.files s0.m_tmp_path =
        some (P ++ B.take s.written_this_session ++ byte_range B s.written_this_session r.2) := by
      rw [hstep]
      show (s.fs.fwrite s.m_tmp_path _).files s0.m_tmp_path = _
      rw [htmp, hpart]
      exact fwrite_at _ _ _ _ hfs
    have hframe : (on_progress s (report_of B r) false).1.fs.dirs = s0.fs.dirs ∧
        (on_progress s (report_of B r) false).1.fs.denied = s0.fs.denied := by
      rw [hstep]
      show (s.fs.fwrite s.m_tmp_path _).dirs = _ ∧ (s.fs.fwrite s.m_tmp_path _).denied = _
      rw [(fwrite_frame _ _ _).1, (fwrite_frame _ _ _).2]
      exact ⟨hdirs, hden⟩
    have hwts : (on_progress s (report_of B r) false).1.written_this_session = r.2 := by
      rw [hstep]; rfl
    refine ⟨⟨?_, ?_, ?_, ?_, ?_, ?_, ?_, ?_, hframe.1, hframe.2⟩, Or.inr ?_,
      fun _ => ⟨?_, ?_⟩⟩
    · rw [hstep]; exact hst
    · rw [hstep]; exact hc
    · rw [hstep]; exact hp
    · rw [hstep]; exact htmp
    · rw [hstep]; exact hdest
    · rw [hstep]; exact hid
    · rw [hstep]; exact hla
    · rw [hfs', hwts, List.append_assoc, take_append_range B _ _ hw]
    · exact hwts
    · exact hwts
    · rw [hfs', hrange]
  · obtain ⟨q, hq⟩ := on_progress_no_flush s (report_of B r) false hst hc hp hfl
    rw [hq]
    refine ⟨⟨hst, hc, hp, htmp, hdest, hid, hla, hfs, hdirs, hden⟩, Or.inl rfl, fun h => ?_⟩
    exact absurd ⟨h.2.2.2.1, h.2.2.2.2.1, h.2.2.2.2.2⟩ hfl

theorem progress_calls_content (s0 : State) (P B : Str) (reports : List (Nat × Nat)) :
    ∀ s : State, content_inv s0 P B s →
      List.Pairwise (fun a b => a ≤ b) (reports.map Prod.snd) →
      (∀ r ∈ reports, s.written_this_session ≤ r.2) →
      (∀ r ∈ reports, r.2 ≤ B.length) →
      content_inv s0 P B (perform_sync s (progress_calls B reports)) ∧
      ∀ D, s.written_this_session ≤ D → (∀ r ∈ reports, r.2 ≤ D) →
        (perform_sync s (progress_calls B reports)).written_this_session ≤ D := by
  induction reports with
  | nil => intro s h _ _ _; exact ⟨h, fun D hD _ => hD⟩
  | cons r rest ih =>
    intro s hinv hmono hw hlen
    have hstep : perform_sync s (progress_calls B (r :: rest)) =
        perform_sync (hook s (HookCall.progress (report_of B r))) (progress_calls B rest) := rfl
    rw [hstep]
    obtain ⟨hinv', hwts, _⟩ := hook_progress_content s0 P B s r hinv
      (hw r (List.mem_cons_self _ _)) (hlen r (List.mem_cons_self _ _))
    rw [List.map_cons, List.pairwise_cons] at hmono
    have hw' : ∀ r' ∈ rest,
        (hook s (HookCall.progress (report_of B r))).written_this_session ≤ r'.2 := by
      intro r' hr'
      rcases hwts with h | h
      · rw [h]; exact hw r' (List.mem_cons_of_mem _ hr')
      · rw [h]; exact hmono.1 _ (List.mem_map_of_mem _ hr')
    obtain ⟨i1, i2⟩ := ih _ hinv' hmono.2 hw' (fun r' hr' => hlen r' (List.mem_cons_of_mem _ hr'))
    refine ⟨i1, fun D hD hall => i2 D ?_ (fun r' hr' => hall r' (List.mem_cons_of_mem _ hr'))⟩
    rcases hwts with h | h
    · rw [h]; exact hD
    · rw [h]; exact hall r (List.mem_cons_self _ _)

/-- The completion hook at the end of a transfer of the body `B`: it publishes the file where
a file can be created at the destination path, and otherwise queues an Error notification and
leaves the temporary file, with all of `B` written. -/
theorem on_complete_content (s0 : State) (P B : Str) (s : State) (status : Nat)
    (hinv : content_inv s0 P B s) (hw : s.written_this_session ≤ B.length) :
    (s0.fs.can_create s0.dest_path = true →
      (on_complete s B status).fs.files s0.dest_path = some (P ++ B) ∧
      (s0.m_tmp_path ≠ s0.dest_path → (on_complete s B status).fs.files s0.m_tmp_path = none) ∧
      (on_complete s B status).queue = s.queue ++
        [EVT_DWNLDR_FILE_PROGRESS s0.m_id (to_string_int 100),
          EVT_DWNLDR_FILE_COMPLETE s0.m_id s0.dest_path s0.m_load_after]) ∧
    (s0.fs.can_create s0.dest_path = false →
      (on_complete s B status).fs.files s0.m_tmp_path = some (P ++ B) ∧
      (on_complete s B status).fs.files s0.dest_path = none ∧
      ∃ msg, (on_complete s B status).queue =
        s.queue ++ [EVT_DWNLDR_FILE_ERROR s0.m_id msg]) := by
  obtain ⟨_, _, _, htmp, hdest, hid, hla, hfs, hdirs, hden⟩ := hinv
  generalize hfs1 : (if s.written_this_session < B.length
      then s.fs.fwrite s.m_tmp_path (B.drop s.written_this_session) else s.fs) = fs1
  have hcontent : fs1.files s0.m_tmp_path = some (P ++ B) := by
    rw [← hfs1]
    split_ifs with h
    · rw [htmp, fwrite_at _ _ _ _ hfs, List.append_assoc, List.take_append_drop]
    · have : s.written_this_session = B.length := by omega
      rw [hfs, this, List.take_length]
  have hframe : fs1.dirs = s0.fs.dirs ∧ fs1.denied = s0.fs.denied := by
    rw [← hfs1]
    split_ifs
    · rw [(fwrite_frame _ _ _).1, (fwrite_frame _ _ _).2]
      exact ⟨hdirs, hden⟩
    · exact ⟨hdirs, hden⟩
  have hcc : fs1.can_create s0.dest_path = s0.fs.can_create s0.dest_path :=
    can_create_congr _ _ _ hframe.1 hframe.2
  have hdef : on_complete s B status =
      match fs1.rename s0.m_tmp_path s0.dest_path with
      | none =>
        { s with
          fs := fs1
          queue := s.queue ++ [EVT_DWNLDR_FILE_ERROR s0.m_id ("Failed to write and move ".toList ++
            s0.m_tmp_path ++ " to ".toList ++ s0.dest_path)] }
      | some fs2 =>
        { s with
          fs := fs2
          queue := s.queue ++ [EVT_DWNLDR_FILE_PROGRESS s0.m_id (to_string_int 100),
            EVT_DWNLDR_FILE_COMPLETE s0.m_id s0.dest_path s0.m_load_after] } := by
    rw [← hfs1, ← htmp, ← hdest, ← hid, ← hla]
    rfl
  constructor
  · intro hcan
    obtain ⟨fs2, hr, hfiles⟩ := rename_of_can_create fs1 _ _ _ hcontent (hcc.trans hcan)
    rw [hdef, hr]
    refine ⟨?_, fun hne => ?_, rfl⟩
    · show fs2.files s0.dest_path = _
      rw [hfiles, if_pos rfl]
    · show fs2.files s0.m_tmp_path = _
      rw [hfiles, if_neg hne, if_pos rfl]
  · intro hcan
    have hr := rename_of_not_can_create fs1 s0.m_tmp_path s0.dest_path (hcc.trans hcan)
    rw [hdef, hr]
    exact ⟨hcontent, files_none_of_not_can_create fs1 _ (hcc.trans hcan), _, rfl⟩

/-- Claim C5.  A session without stop request streams the body `B`: the temporary file holds
`P` at the start (nothing in a fresh session, the bytes flushed before in a resumed one), the
progress hook is invoked with non-decreasing counts `dlnow ≤ |B|` and any size hints, each time
with the first `dlnow` bytes of `B` as buffer, and then the completion hook with `B`.  Every
flush of the progress hook appends exactly the bytes `[written_this_session, dlnow)` of its
buffer and advances `written_this_session` to `dlnow`, and in the end the bytes written after
`P` are exactly `B`: where a file can be created at the destination path (its directory exists
and it is no directory), the published file holds `P` followed by `B`, the temporary file is
gone, and progress 100 and the completion are queued; where none can be created, the rename
throws, an Error notification is queued, nothing is published, and the temporary file holds
`P` followed by `B`. -/
theorem streamed_content_exact (s0 : State) (P B : Str) (reports : List (Nat × Nat))
    (status : Nat)
    (hst : s0.m_stopped = false) (hc : s0.m_cancel = false) (hp : s0.m_pause = false)
    (hwts : s0.written_this_session = 0)
    (htmp : s0.fs.files s0.m_tmp_path = some P)
    (hmono : List.Pairwise (fun a b => a ≤ b) (reports.map Prod.snd))
    (hlen : ∀ r ∈ reports, r.2 ≤ B.length) :
    (s0.fs.can_create s0.dest_path = true →
      (perform_sync s0 (progress_calls B reports ++ [HookCall.complete B status])).fs.files
        s0.dest_path = some (P ++ B) ∧
      (s0.m_tmp_path ≠ s0.dest_path →
        (perform_sync s0 (progress_calls B reports ++ [HookCall.complete B status])).fs.files
          s0.m_tmp_path = none) ∧
      (perform_sync s0 (progress_calls B reports ++ [HookCall.complete B status])).queue =
        (perform_sync s0 (progress_calls B reports)).queue ++
          [EVT_DWNLDR_FILE_PROGRESS s0.m_id (to_string_int 100),
            EVT_DWNLDR_FILE_COMPLETE s0.m_id s0.dest_path s0.m_load_after]) ∧
    (s0.fs.can_create s0.dest_path = false →
      (perform_sync s0 (progress_calls B reports ++ [HookCall.complete B status])).fs.files
        s0.m_tmp_path = some (P ++ B) ∧
      (perform_sync s0 (progress_calls B reports ++ [HookCall.complete B status])).fs.files
        s0.dest_path = none ∧
      ∃ msg,
        (perform_sync s0 (progress_calls B reports ++ [HookCall.complete B status])).queue =
          (perform_sync s0 (progress_calls B reports)).queue ++
            [EVT_DWNLDR_FILE_ERROR s0.m_id msg]) ∧
    (∀ (pre post : List (Nat × Nat)) (r : Nat × Nat), reports = pre ++ r :: post →
      flushes (perform_sync s0 (progress_calls B pre)) ⟨false, false, report_of B r⟩ →
      ∃ old, (perform_sync s0 (progress_calls B pre)).fs.files s0.m_tmp_path = some old ∧
        (hook (perform_sync s0 (progress_calls B pre))
          (HookCall.progress (report_of B r))).fs.files s0.m_tmp_path =
            some (old ++ byte_range (report_of B r).buffer
              (perform_sync s0 (progress_calls B pre)).written_this_session r.2) ∧
        (hook (perform_sync s0 (progress_calls B pre))
          (HookCall.progress (report_of B r))).written_this_session = r.2) := by
  have hinv0 : content_inv s0 P B s0 :=
    ⟨hst, hc, hp, rfl, rfl, rfl, rfl, by rw [hwts]; simpa using htmp, rfl, rfl⟩
  have hw0 : ∀ rs : List (Nat × Nat), ∀ r ∈ rs, s0.written_this_session ≤ r.2 := by
    intro rs r _; omega
  obtain ⟨i1, i2⟩ := progress_calls_content s0 P B reports s0 hinv0 hmono (hw0 _) hlen
  have hfinal : perform_sync s0 (progress_calls B reports ++ [HookCall.complete B status]) =
      on_complete (perform_sync s0 (progress_calls B reports)) B status := by
    simp [perform_sync, hook]
  obtain ⟨c1, c2⟩ := on_complete_content s0 P B _ status i1 (i2 _ (by omega) hlen)
  rw [hfinal]
  refine ⟨c1, c2, ?_⟩
  intro pre post r hsplit hfl
  subst hsplit
  rw [List.map_append, List.pairwise_append] at hmono
  have hlen_pre : ∀ r' ∈ pre, r'.2 ≤ B.length := fun r' hr' => hlen r' (by simp [hr'])
  obtain ⟨j1, j2⟩ := progress_calls_content s0 P B pre s0 hinv0 hmono.1 (hw0 _) hlen_pre
  have hwr : (perform_sync s0 (progress_calls B pre)).written_this_session ≤ r.2 :=
    j2 _ (by omega) (fun r' hr' =>
      hmono.2.2 _ (List.mem_map_of_mem _ hr') _ (by simp))
  obtain ⟨_, _, k3⟩ := hook_progress_content s0 P B _ r j1 hwr (hlen r (by simp))
  obtain ⟨k4, k5⟩ := k3 hfl
  exact ⟨_, j1.2.2.2.2.2.2.2.1, k5, k4⟩

theorem streamed_content_exact_witness :
    (perform_sync example_resumed (progress_calls "efgh".toList [(4, 2), (4, 4)] ++
      [HookCall.complete "efgh".toList 206])).fs.files example_resumed.dest_path =
        some ("abcd".toList ++ "efgh".toList) ∧
    (perform_sync example_subdir (progress_calls "abcd".toList [(4, 4)] ++
      [HookCall.complete "abcd".toList 200])).fs.files example_subdir.m_tmp_path =
        some ([] ++ "abcd".toList) ∧
    (perform_sync example_subdir (progress_calls "abcd".toList [(4, 4)] ++
      [HookCall.complete "abcd".toList 200])).fs.files example_subdir.dest_path = none :=
  ⟨((streamed_content_exact example_resumed "abcd".toList "efgh".toList [(4, 2), (4, 4)] 206
    (by decide) (by decide) (by decide) (by decide) (by decide) (by decide)
    (by decide)).1 (by decide)).1,
   ((streamed_content_exact example_subdir [] "abcd".toList [(4, 4)] 200
    (by decide) (by decide) (by decide) (by decide) (by decide) (by decide)
    (by decide)).2.1 (by decide)).1,
   ((streamed_content_exact example_subdir [] "abcd".toList [(4, 4)] 200
    (by decide) (by decide) (by decide) (by decide) (by decide) (by decide)
    (by decide)).2.1 (by decide)).2.1⟩

/-- The rename into a missing directory: after the server named `sub/evil.stl`, the completion
hook queues the Error notification with the two paths and publishes nothing. -/
theorem on_complete_missing_directory :
    example_subdir.dest_path = "dl/sub/evil.stl".toList ∧
    (hook (hook example_subdir (HookCall.progress example_progress))
      (HookCall.complete "abcd".toList 200)).queue =
      (hook example_subdir (HookCall.progress example_progress)).queue ++
        [EVT_DWNLDR_FILE_ERROR 7 ("Failed to write and move dl/model.stl.1234.download".toList ++
          " to dl/sub/evil.stl".toList)] ∧
    (hook (hook example_subdir (HookCall.progress example_progress))
      (HookCall.complete "abcd".toList 200)).fs.files "dl/sub/evil.stl".toList = none ∧
    (hook (hook example_subdir (HookCall.progress example_progress))
      (HookCall.complete "abcd".toList 200)).fs.files "dl/model.stl.1234.download".toList =
        some "abcd".toList := by
  decide

/-! ## Pause, resume and cancel -/

/-- A stopped worker changes neither `m_written` nor the url, the temporary path or the stop
flag, whatever the transport still invokes. -/
theorem hook_stopped (s : State) (call : HookCall) (h : s.m_stopped = true) :
    (hook s call).m_stopped = true ∧ (hook s call).m_written = s.m_written ∧
    (hook s call).m_url = s.m_url ∧ (hook s call).m_tmp_path = s.m_tmp_path := by
  cases call with
  | progress p =>
    have hh : hook s (HookCall.progress p) = (on_progress s p false).1 := rfl
    rw [hh]
    rw [on_progress_stopped s p false h]
    exact ⟨h, rfl, rfl, rfl⟩
  | headers hd =>
    have hh : hook s (HookCall.headers hd) = on_headers s hd := rfl
    rw [hh]
    unfold on_headers
    simp only
    split_ifs
    · exact ⟨h, rfl, rfl, rfl⟩
    · split <;> exact ⟨h, rfl, rfl, rfl⟩
  | error body err st => exact ⟨h, rfl, rfl, rfl⟩
  | complete body st =>
    have hh : hook s (HookCall.complete body st) = on_complete s body st := rfl
    rw [hh]
    unfold on_complete
    simp only
    split <;> exact ⟨h, rfl, rfl, rfl⟩

theorem perform_sync_stopped (calls : List HookCall) :
    ∀ s : State, s.m_stopped = true →
      (perform_sync s calls).m_stopped = true ∧ (perform_sync s calls).m_written = s.m_written ∧
      (perform_sync s calls).m_url = s.m_url ∧
      (perform_sync s calls).m_tmp_path = s.m_tmp_path := by
  induction calls with
  | nil => intro s h; exact ⟨h, rfl, rfl, rfl⟩
  | cons call calls ih =>
    intro s h
    obtain ⟨h1, h2, h3, h4⟩ := hook_stopped s call h
    obtain ⟨i1, i2, i3, i4⟩ := ih (hook s call) h1
    have hstep : perform_sync s (call :: calls) = perform_sync (hook s call) calls := rfl
    rw [hstep]
    exact ⟨i1, i2.trans h2, i3.trans h3, i4.trans h4⟩

/-- A rename changes neither the directories nor the inaccessible paths. -/
theorem rename_frame (fs : FS) (src dst : Str) (fs2 : FS)
    (h : fs.rename src dst = some fs2) :
    fs2.dirs = fs.dirs ∧ fs2.denied = fs.denied := by
  unfold FS.rename at h
  split at h
  · cases h
  · split_ifs at h
    cases h
    exact ⟨rfl, rfl⟩

/-- No hook changes which directories exist and which paths cannot be accessed. -/
theorem hook_frame (s : State) (call : HookCall) :
    (hook s call).fs.dirs = s.fs.dirs ∧ (hook s call).fs.denied = s.fs.denied := by
  cases call with
  | progress p =>
    have hh : hook s (HookCall.progress p) = (on_progress s p false).1 := rfl
    rw [hh]
    unfold on_progress
    split_ifs <;> (try split) <;>
      first
      | exact ⟨rfl, rfl⟩
      | exact fwrite_frame _ _ _
  | headers hd =>
    have hh : hook s (HookCall.headers hd) = on_headers s hd := rfl
    rw [hh]
    unfold on_headers
    simp only
    split_ifs
    · exact ⟨rfl, rfl⟩
    · split <;> exact ⟨rfl, rfl⟩
  | error body err st => exact ⟨rfl, rfl⟩
  | complete body st =>
    have hh : hook s (HookCall.complete body st) = on_complete s body st := rfl
    rw [hh]
    have hf1 : ∀ w : Str, (if s.written_this_session < body.length
        then s.fs.fwrite s.m_tmp_path w else s.fs).dirs = s.fs.dirs ∧
        (if s.written_this_session < body.length
        then s.fs.fwrite s.m_tmp_path w else s.fs).denied = s.fs.denied := by
      intro w
      split_ifs
      · exact fwrite_frame _ _ _
      · exact ⟨rfl, rfl⟩
    have hf := hf1 (body.drop s.written_this_session)
    unfold on_complete
    simp only
    generalize (if s.written_this_session < body.length
        then s.fs.fwrite s.m_tmp_path (body.drop s.written_this_session) else s.fs) = fs1 at hf ⊢
    split
    · exact hf
    · rename_i fs2 hr
      obtain ⟨r1, r2⟩ := rename_frame fs1 _ _ fs2 hr
      exact ⟨r1.trans hf.1, r2.trans hf.2⟩

theorem perform_sync_frame (calls : List HookCall) :
    ∀ s : State, (perform_sync s calls).fs.dirs = s.fs.dirs ∧
      (perform_sync s calls).fs.denied = s.fs.denied := by
  induction calls with
  | nil => intro s; exact ⟨rfl, rfl⟩
  | cons call calls ih =>
    intro s
    have hstep : perform_sync s (call :: calls) = perform_sync (hook s call) calls := rfl
    rw [hstep]
    obtain ⟨h1, h2⟩ := hook_frame s call
    obtain ⟨i1, i2⟩ := ih (hook s call)
    exact ⟨i1.trans h1, i2.trans h2⟩

/-- A file can be replaced where a file is. -/
theorem can_create_of_file (fs : FS) (p content : Str) (h : fs.files p = some content) :
    fs.can_create p = true := by
  have h1 : (fs.files p).isSome = true := by rw [h]; rfl
  simp [FS.can_create, fs.file_not_denied p h1, fs.file_not_dir p h1,
    fs.parent_present p (Or.inl h1)]

/-- A worker that issued its request holds the temporary file, whichever mode it opened it
in. -/
theorem open_and_request_opens (t : State) (h : (open_and_request t).2 ≠ none) :
    ∃ content, (open_and_request t).1.fs.files (open_and_request t).1.m_tmp_path =
      some content := by
  rcases open_and_request_cases t with ⟨hc, file, hfile, heq⟩ | ⟨_, heq⟩
  · rw [heq]
    by_cases h0 : t.m_written = 0
    · rw [if_pos h0, fopen_wb_of_can_create _ _ hc] at hfile
      cases hfile
      exact ⟨[], by simp [put_files]⟩
    · rw [if_neg h0, fopen_ab_of_can_create _ _ hc] at hfile
      cases hfile
      exact ⟨(t.fs.files t.m_tmp_path).getD [], by simp [put_files]⟩
  · rw [heq] at h
    exact absurd rfl h

theorem get_perform_opens (pid : Nat) (j : State) (h : (get_perform pid j).2 ≠ none) :
    ∃ content, (get_perform pid j).1.fs.files (get_perform pid j).1.m_tmp_path =
      some content := by
  by_cases h0 : j.m_written = 0
  · obtain ⟨f, hf⟩ := get_perform_request_search pid j h0 h
    rw [get_perform_of_found pid j f h0 hf] at h ⊢
    exact open_and_request_opens _ h
  · have hgp : get_perform pid j = open_and_request { j with m_stopped := false } := by
      simp only [get_perform, h0, if_false]
    rw [hgp] at h ⊢
    exact open_and_request_opens _ h

/-- A poll that leaves the job running leaves it its temporary file. -/
theorem poll_keeps_temporary (s : State) (x : Poll)
    (h : s.m_stopped = false → ∃ content, s.fs.files s.m_tmp_path = some content) :
    (poll s x).m_stopped = false →
      ∃ content, (poll s x).fs.files (poll s x).m_tmp_path = some content := by
  unfold poll
  generalize hs' : set_requests s x.cancel_requested x.pause_requested = s'
  have e1 : s'.m_stopped = s.m_stopped := by rw [← hs']; rfl
  have e2 : s'.fs = s.fs := by rw [← hs']; rfl
  have e3 : s'.m_tmp_path = s.m_tmp_path := by rw [← hs']; rfl
  rw [← e1, ← e2, ← e3] at h
  rcases Bool.eq_false_or_eq_true s'.m_stopped with hst | hst
  · rw [on_progress_stopped s' _ _ hst]
    intro hh
    rw [hst] at hh
    exact absurd hh (by simp)
  · rcases Bool.eq_false_or_eq_true s'.m_cancel with hc | hc
    · rw [on_progress_cancel s' _ _ hst hc]
      intro hh
      exact absurd hh (by simp)
    · rcases Bool.eq_false_or_eq_true s'.m_pause with hp | hp
      · rw [on_progress_pause s' _ _ hst hc hp]
        intro hh
        exact absurd hh (by simp)
      · obtain ⟨old, hold⟩ := h hst
        by_cases hfl : x.progress.dlnow ≠ 0 ∧
            (size_sub x.progress.dlnow s'.written_this_session > DOWNLOAD_MAX_CHUNK_SIZE ∨
              x.progress.dlnow = x.progress.dltotal) ∧
            s'.written_this_session ≤ x.progress.buffer.length
        · rw [on_progress_flush s' _ _ hst hc hp hfl.1 hfl.2.1 hfl.2.2]
          intro _
          exact ⟨_, fwrite_at _ _ _ _ hold⟩
        · obtain ⟨q, hq⟩ := on_progress_no_flush s' x.progress false hst hc hp hfl
          rw [hq]
          intro _
          exact ⟨_, hold⟩

theorem polls_keeps_temporary (xs : List Poll) :
    ∀ s : State, (s.m_stopped = false → ∃ content, s.fs.files s.m_tmp_path = some content) →
      (polls s xs).m_stopped = false →
        ∃ content, (polls s xs).fs.files (polls s xs).m_tmp_path = some content := by
  induction xs with
  | nil => intro s h; exact h
  | cons x xs ih =>
    intro s h
    have hstep : polls s (x :: xs) = polls (poll s x) xs := rfl
    rw [hstep]
    exact ih _ (poll_keeps_temporary s x h)

/-- The temporary file of an active job is there: in every run of a worker that issued its
request, a job that is not stopped has its temporary file. -/
theorem active_job_has_temporary (pid : Nat) (j : State) (xs : List Poll)
    (h : (get_perform pid j).2 ≠ none)
    (hst : (polls (get_perform pid j).1 xs).m_stopped = false) :
    ∃ content, (polls (get_perform pid j).1 xs).fs.files
      (polls (get_perform pid j).1 xs).m_tmp_path = some content :=
  polls_keeps_temporary xs _ (fun _ => get_perform_opens pid j h) hst

/-- A start of the worker with a non-zero `m_written`, where the temporary file can be opened:
no name search, append mode and a range from `m_written`. -/
theorem get_perform_resumed (pid : Nat) (s : State) (h : s.m_written ≠ 0)
    (hc : s.fs.can_create s.m_tmp_path = true) :
    (get_perform pid s).2 = some (OpenMode.ab,
      { url := s.m_url
        size_limit := DOWNLOAD_SIZE_LIMIT
        range := to_string s.m_written ++ ['-'] }) ∧
    (get_perform pid s).1.written_previously = s.m_written := by
  have hgp : get_perform pid s = open_and_request { s with m_stopped := false } := by
    simp only [get_perform, h, if_false]
  rw [hgp]
  rcases open_and_request_cases { s with m_stopped := false } with
    ⟨_, file, _, heq⟩ | ⟨hno, _⟩
  · rw [heq]
    simp [h]
  · have : s.fs.can_create s.m_tmp_path = false := hno
    rw [hc] at this
    exact absurd this (by simp)

/-- Claim C4, counterexample.  The example download has received two of four bytes, none
flushed yet, when the pause request is observed: the hook queues Paused and removes the
temporary file, and the following `resume()` opens the file afresh (`wb`) with range `0-`. -/
theorem pause_before_first_flush_removes_temporary :
    (hook example_session (HookCall.progress example_progress_half)).m_stopped = false ∧
    (hook example_session (HookCall.progress example_progress_half)).fs.files
      "dl/model.stl.1234.download".toList = some [] ∧
    example_paused_early.queue =
      (hook example_session (HookCall.progress example_progress_half)).queue ++
        [EVT_DWNLDR_FILE_PAUSED 7] ∧
    example_paused_early.fs.files "dl/model.stl.1234.download".toList = none ∧
    (FileGet.resume 1234 example_paused_early []).2 =
      some (OpenMode.wb,
        { url := "https://files.example/model.stl".toList
          size_limit := DOWNLOAD_SIZE_LIMIT
          range := "0-".toList }) := by
  decide

/-- Claim C4, amended.  On a job with a non-zero flushed offset `W = m_written` whose
temporary file is there, the progress hook that observes the pause request (and no cancel
request) leaves the filesystem, and so the temporary file, as it is, leaves `m_written` at `W`,
and queues Paused; a following `resume()`, whatever the joined worker is still invoked with,
opens the temporary file for append and issues the request with the range `W` in decimal
followed by `-`. -/
theorem pause_then_resume_continues (pid : Nat) (s : State) (p : Progress) (c : Bool)
    (pending : List HookCall) (content : Str)
    (hst : s.m_stopped = false) (hc : s.m_cancel = false) (hp : s.m_pause = true)
    (hW : s.m_written ≠ 0)
    (hfile : s.fs.files s.m_tmp_path = some content) :
    (on_progress s p c).1.fs = s.fs ∧
    (on_progress s p c).1.m_written = s.m_written ∧
    (on_progress s p c).1.queue = s.queue ++ [EVT_DWNLDR_FILE_PAUSED s.m_id] ∧
    (FileGet.resume pid (on_progress s p c).1 pending).2 =
      some (OpenMode.ab,
        { url := s.m_url
          size_limit := DOWNLOAD_SIZE_LIMIT
          range := to_string s.m_written ++ ['-'] }) ∧
    (FileGet.resume pid (on_progress s p c).1 pending).1.written_previously = s.m_written := by
  rw [on_progress_pause s p c hst hc hp]
  simp only [hW, if_false]
  refine ⟨trivial, trivial, trivial, ?_⟩
  generalize hs1 : ({ s with
    m_stopped := true
    queue := s.queue ++ [EVT_DWNLDR_FILE_PAUSED s.m_id] } : State) = s1
  have e1 : s1.m_stopped = true := by rw [← hs1]
  have e2 : s1.m_written = s.m_written := by rw [← hs1]
  have e3 : s1.m_url = s.m_url := by rw [← hs1]
  have e4 : s1.m_tmp_path = s.m_tmp_path := by rw [← hs1]
  have e5 : s1.fs = s.fs := by rw [← hs1]
  have hcan := can_create_of_file s.fs _ _ hfile
  have key : ∀ t : State, t.m_written = s.m_written → t.m_url = s.m_url →
      t.m_tmp_path = s.m_tmp_path → t.fs.dirs = s.fs.dirs → t.fs.denied = s.fs.denied →
      (get_perform pid t).2 = some (OpenMode.ab,
        { url := s.m_url
          size_limit := DOWNLOAD_SIZE_LIMIT
          range := to_string s.m_written ++ ['-'] }) ∧
      (get_perform pid t).1.written_previously = s.m_written := by
    intro t ht1 ht2 ht3 ht4 ht5
    have hct : t.fs.can_create t.m_tmp_path = true := by
      rw [ht3, can_create_congr t.fs s.fs _ ht4 ht5]
      exact hcan
    obtain ⟨g2, g4⟩ := get_perform_resumed pid t (by rw [ht1]; exact hW) hct
    rw [g2, g4, ht1, ht2]
    exact ⟨rfl, rfl⟩
  obtain ⟨_, j2, j3, j4⟩ := perform_sync_stopped pending { s1 with m_cancel := true } e1
  obtain ⟨f1, f2⟩ := perform_sync_frame pending { s1 with m_cancel := true }
  have hjoin_w : (join { s1 with m_cancel := true } pending).m_written = s.m_written :=
    j2.trans e2
  have hjoin_u : (join { s1 with m_cancel := true } pending).m_url = s.m_url :=
    j3.trans e3
  have hjoin_t : (join { s1 with m_cancel := true } pending).m_tmp_path = s.m_tmp_path :=
    j4.trans e4
  have hjoin_d : (join { s1 with m_cancel := true } pending).fs.dirs = s.fs.dirs :=
    f1.trans (by rw [← e5])
  have hjoin_n : (join { s1 with m_cancel := true } pending).fs.denied = s.fs.denied :=
    f2.trans (by rw [← e5])
  unfold FileGet.resume
  refine key _ ?_ ?_ ?_ ?_ ?_
  · show (if s1.joinable = true then join { s1 with m_cancel := true } pending
      else s1).m_written = s.m_written
    split_ifs
    · exact hjoin_w
    · exact e2
  · show (if s1.joinable = true then join { s1 with m_cancel := true } pending
      else s1).m_url = s.m_url
    split_ifs
    · exact hjoin_u
    · exact e3
  · show (if s1.joinable = true then join { s1 with m_cancel := true } pending
      else s1).m_tmp_path = s.m_tmp_path
    split_ifs
    · exact hjoin_t
    · exact e4
  · show (if s1.joinable = true then join { s1 with m_cancel := true } pending
      else s1).fs.dirs = s.fs.dirs
    split_ifs
    · exact hjoin_d
    · rw [e5]
  · show (if s1.joinable = true then join { s1 with m_cancel := true } pending
      else s1).fs.denied = s.fs.denied
    split_ifs
    · exact hjoin_n
    · rw [e5]

theorem pause_then_resume_continues_witness :
    (on_progress five_mib_session dummy_progress false).1.fs = five_mib_session.fs ∧
    (on_progress five_mib_session dummy_progress false).1.m_written = 5242880 ∧
    (FileGet.resume 1234 (on_progress five_mib_session dummy_progress false).1
      [HookCall.progress dummy_progress]).2 =
      some (OpenMode.ab,
        { url := "https://files.example/model.stl".toList
          size_limit := DOWNLOAD_SIZE_LIMIT
          range := "5242880-".toList }) :=
  have h := pause_then_resume_continues 1234 five_mib_session dummy_progress false
    [HookCall.progress dummy_progress] [] (by decide) (by decide) (by decide) (by decide)
    (by decide)
  ⟨h.1, h.2.1, h.2.2.2.1⟩

/-- The part of C3 about an active transfer: after `cancel()` the next poll of the worker
removes the temporary file, resets `m_written` and queues the Cancelled notification. -/
theorem cancel_active_discards (s : State) (pending : List HookCall) (p : Progress) (c : Bool)
    (hst : s.m_stopped = false) :
    (on_progress (FileGet.cancel s pending) p c).1.fs.files s.m_tmp_path = none ∧
    (on_progress (FileGet.cancel s pending) p c).1.m_written = 0 ∧
    (on_progress (FileGet.cancel s pending) p c).1.queue =
      s.queue ++ [EVT_DWNLDR_FILE_CANCELED s.m_id] := by
  have hcancel : FileGet.cancel s pending = { s with m_cancel := true } := by
    simp [FileGet.cancel, hst]
  rw [hcancel, on_progress_cancel { s with m_cancel := true } p c hst rfl]
  simp [FS.remove]

/-- On a stopped job `cancel()` discards nothing when the joined worker is only polled: the
filesystem and `m_written` stay as they are. -/
theorem cancel_stopped_keeps_progress (s : State) (reports : List Progress)
    (hst : s.m_stopped = true) :
    (FileGet.cancel s (reports.map HookCall.progress)).fs = s.fs ∧
    (FileGet.cancel s (reports.map HookCall.progress)).m_written = s.m_written := by
  have hrun : ∀ (rs : List Progress) (t : State), t.m_stopped = true →
      perform_sync t (rs.map HookCall.progress) = t := by
    intro rs
    induction rs with
    | nil => intro t _; rfl
    | cons r rs ih =>
      intro t ht
      have hstep : perform_sync t ((r :: rs).map HookCall.progress) =
          perform_sync (on_progress t r false).1 (rs.map HookCall.progress) := rfl
      rw [hstep, on_progress_stopped t r false ht]
      exact ih t ht
  have hj' : join { s with m_cancel := true } (reports.map HookCall.progress) =
      { s with m_cancel := true, joinable := false } := by
    unfold join
    rw [hrun reports { s with m_cancel := true } hst]
  unfold FileGet.cancel
  rw [if_pos hst]
  by_cases hj : s.joinable = true
  · rw [if_pos hj, hj']
    exact ⟨rfl, rfl⟩
  · rw [if_neg hj]
    exact ⟨rfl, rfl⟩

/-- Claim C3, the code at the failing input.  The example download is paused after its four
bytes were flushed; the worker is still joinable.  `cancel()` joins the worker, whose last poll
finds the job stopped, and queues Cancelled; afterwards the temporary file is still there with
its four bytes and `m_written` is still 4. -/
theorem cancel_after_pause_keeps_progress :
    example_paused.m_stopped = true ∧ example_paused.joinable = true ∧
    (FileGet.cancel example_paused [HookCall.progress dummy_progress]).queue =
      example_paused.queue ++ [EVT_DWNLDR_FILE_CANCELED 7] ∧
    (FileGet.cancel example_paused [HookCall.progress dummy_progress]).joinable = false ∧
    (FileGet.cancel example_paused [HookCall.progress dummy_progress]).fs.files
      "dl/model.stl.1234.download".toList = some "abcd".toList ∧
    (FileGet.cancel example_paused [HookCall.progress dummy_progress]).m_written = 4 := by
  decide

end Slic3r.GUI
